import Mathlib

/-
  Verification of the atcalendar event scheduling and layout engine.

  Shallow embedding of:
  - src/lib/utils.ts        (parseSafeDate, makeEventKey, groupApiEventsToScheduled)
  - src/lib/layoutEvents.ts (layoutEvents, layoutCluster)
  - src/hooks/useCalendarDrag.ts (makeMovedEvent, handleDragEnd, handleMonthDragEnd)

  Modelling conventions:
  - A JS time value (milliseconds since the epoch) is an `Int`; a JS `Date` value is
    `Option Int`, where `none` stands for an Invalid Date (NaN time value).
  - An optional field of type `Date | undefined` is `Option (Option Int)`.
  - Local time is modelled as a fixed-offset clock with no DST, so civil fields are
    derived from the time value by plain Gregorian-calendar arithmetic.
  - `Record<string, T>` objects are association lists `List (String × T)` with unique
    keys, insertion order preserved, first-match lookup.
  - JS numbers that are always integral in the program are `Int`; the percentage
    widths of the layout engine are IEEE-754 binary64 doubles, represented as the
    exact rationals they denote and computed with correctly rounded operations
    (`fl`, `jsDiv`, `jsMul`: round to nearest, ties to even, 53-bit significand).
-/

namespace ATCalendar

/-- A JS `Date` value: `some t` is a valid date with time value `t` in milliseconds
since the epoch; `none` is an Invalid Date (NaN time value). -/
abbrev JSDate := Option Int

/-! ## Gregorian calendar arithmetic (the JS `Date` local-time field model) -/

/-- Days from the epoch 1970-01-01 for a civil date (Hinnant's `days_from_civil`). -/
def daysFromCivil (y m d : Int) : Int :=
  let y2 := y - (if m ≤ 2 then 1 else 0)
  let m2 := m + (if m ≤ 2 then 9 else -3)
  365 * y2 + y2.fdiv 4 - y2.fdiv 100 + y2.fdiv 400 + (153 * m2 + 2).fdiv 5 + d - 1 - 719468

/-- Civil date (year, month 1..12, day 1..31) from days since the epoch
(Hinnant's `civil_from_days`). -/
def civilFromDays (z : Int) : Int × Int × Int :=
  let z2 := z + 719468
  let era := z2.fdiv 146097
  let doe := z2 - era * 146097
  let yoe := (doe - doe.fdiv 1460 + doe.fdiv 36524 - doe.fdiv 146096).fdiv 365
  let y := yoe + era * 400
  let doy := doe - (365 * yoe + yoe.fdiv 4 - yoe.fdiv 100)
  let mp := (5 * doy + 2).fdiv 153
  let d := doy - (153 * mp + 2).fdiv 5 + 1
  let m := mp + (if mp < 10 then 3 else -9)
  (y + (if m ≤ 2 then 1 else 0), m, d)

/-- `Date.prototype.getFullYear` on a valid time value. -/
def getFullYear (t : Int) : Int := (civilFromDays (t.fdiv 86400000)).1

/-- `Date.prototype.getMonth` (0-based) on a valid time value. -/
def getMonth (t : Int) : Int := (civilFromDays (t.fdiv 86400000)).2.1 - 1

/-- `Date.prototype.getDate` (day of month) on a valid time value. -/
def getDate (t : Int) : Int := (civilFromDays (t.fdiv 86400000)).2.2

/-- `Date.prototype.getHours` on a valid time value. -/
def getHours (t : Int) : Int := (t.fdiv 3600000).emod 24

/-- `Date.prototype.getMinutes` on a valid time value. -/
def getMinutes (t : Int) : Int := (t.fdiv 60000).emod 60

/-- `Date.prototype.getSeconds` on a valid time value. -/
def getSeconds (t : Int) : Int := (t.fdiv 1000).emod 60

/-- The time value produced by `new Date(y, monIdx, d, h, min, s, ms)`: the ECMAScript
`MakeDay`/`MakeTime` computation, including the mapping of years 0..99 to 1900..1999
and the normalisation of out-of-range month/day/time arguments by carrying. -/
def mkLocalTime (y monIdx d h min s ms : Int) : Int :=
  let yr := if 0 ≤ y ∧ y ≤ 99 then y + 1900 else y
  let ym := yr + monIdx.fdiv 12
  let mn := monIdx.emod 12
  (daysFromCivil ym (mn + 1) 1 + (d - 1)) * 86400000
    + h * 3600000 + min * 60000 + s * 1000 + ms

/-- `String(n).padStart(2, '0')` for the integral JS numbers used in bucket keys. -/
def pad2 (n : Int) : String :=
  let s := toString n
  if s.length < 2 then "0" ++ s else s

/-- Zero-padding to four characters, as the date-fns `yyyy` format token does. -/
def pad4 (n : Int) : String :=
  let s := toString n
  if s.length ≥ 4 then s else String.mk (List.replicate (4 - s.length) '0') ++ s

/-- date-fns `format(d, 'yyyyMMddHHmmss')` on a valid time value. -/
def formatFull (t : Int) : String :=
  pad4 (getFullYear t) ++ pad2 (getMonth t + 1) ++ pad2 (getDate t)
    ++ pad2 (getHours t) ++ pad2 (getMinutes t) ++ pad2 (getSeconds t)

/-- date-fns `format(d, 'yyyyMMdd')` on a valid time value. -/
def formatYmd (t : Int) : String :=
  pad4 (getFullYear t) ++ pad2 (getMonth t + 1) ++ pad2 (getDate t)

/-- date-fns `differenceInMinutes(a, b)` on valid dates: the millisecond difference
divided by 60000 and rounded toward zero. -/
def differenceInMinutes (a b : Int) : Int := (a - b).tdiv 60000

/-! ## String splitting (structural-recursion model of `String.prototype.split`) -/

/-- Split a character list on a separator character; like JS `split`, the empty
input yields one empty field and separators at the ends yield empty fields. -/
def splitOnChar (c : Char) : List Char → List (List Char)
  | [] => [[]]
  | x :: xs =>
    let r := splitOnChar c xs
    if x = c then [] :: r
    else
      match r with
      | [] => [[x]]
      | h :: t => (x :: h) :: t

/-- `s.split(c)` for a one-character separator. -/
def jsSplit (s : String) (c : Char) : List String :=
  (splitOnChar c s.data).map String.mk

/-- Is `p` a prefix of the character list? -/
def charsPrefixOf : List Char → List Char → Bool
  | [], _ => true
  | _ :: _, [] => false
  | a :: as, b :: bs => a = b && charsPrefixOf as bs

/-- `s.startsWith(p)`. -/
def strStartsWith (s p : String) : Bool := charsPrefixOf p.data s.data

/-! ## JS numeric string parsing -/

/-- Accumulate the leading run of decimal digits; `none` when no digit was consumed. -/
def takeDigits : List Char → Nat → Bool → Option Nat
  | [], acc, seen => if seen then some acc else none
  | c :: rest, acc, seen =>
    if c.isDigit then takeDigits rest (acc * 10 + (c.toNat - 48)) true
    else if seen then some acc else none

/-- `parseInt(s, 10)`: an optional sign followed by a longest run of decimal digits;
`none` models NaN. -/
def jsParseInt (s : String) : Option Int :=
  match s.data with
  | '-' :: rest => (takeDigits rest 0 false).map (fun n => -(n : Int))
  | '+' :: rest => (takeDigits rest 0 false).map (fun n => (n : Int))
  | cs => (takeDigits cs 0 false).map (fun n => (n : Int))

/-- `parseInt` applied to a possibly-`undefined` string (as when array destructuring
runs past the end of the split parts); `parseInt(undefined)` is NaN. -/
def jsParseIntU (s : Option String) : Option Int := s.bind jsParseInt

/-! ## ISO date-string parsing (`new Date(isoString)` as used by `parseSafeDate`) -/

/-- A fixed-width all-digit numeral, as in the ISO 8601 date-time grammar. -/
def parseFixedDigits (s : String) (len : Nat) : Option Nat :=
  if s.length = len ∧ s.data.all Char.isDigit then
    some (s.data.foldl (fun acc c => acc * 10 + (c.toNat - 48)) 0)
  else none

/-- Parse the `YYYY-MM-DD` part of an ISO date string, validating that the civil
date exists (as the ECMAScript date-time string format requires). -/
def parseIsoYmd (s : String) : Option (Int × Int × Int) :=
  match jsSplit s '-' with
  | [ys, ms, ds] =>
    match parseFixedDigits ys 4, parseFixedDigits ms 2, parseFixedDigits ds 2 with
    | some y, some m, some d =>
      if civilFromDays (daysFromCivil (y : Int) (m : Int) (d : Int))
          = ((y : Int), (m : Int), (d : Int)) then
        some ((y : Int), (m : Int), (d : Int))
      else none
    | _, _, _ => none
  | _ => none

/-- Parse the `HH:MM` or `HH:MM:SS` part of an ISO date string. -/
def parseIsoHms (s : String) : Option (Int × Int × Int) :=
  match jsSplit s ':' with
  | [hs, ms] =>
    match parseFixedDigits hs 2, parseFixedDigits ms 2 with
    | some h, some mi =>
      if h ≤ 23 ∧ mi ≤ 59 then some ((h : Int), (mi : Int), 0) else none
    | _, _ => none
  | [hs, ms, ss] =>
    match parseFixedDigits hs 2, parseFixedDigits ms 2, parseFixedDigits ss 2 with
    | some h, some mi, some se =>
      if h ≤ 23 ∧ mi ≤ 59 ∧ se ≤ 59 then some ((h : Int), (mi : Int), (se : Int)) else none
    | _, _, _ => none
  | _ => none

/-- `new Date(s).getTime()` for an ISO 8601 calendar date string, `none` for NaN. -/
def parseIsoDate (s : String) : Option Int :=
  match jsSplit s 'T' with
  | [ds] =>
    (parseIsoYmd ds).map (fun p => daysFromCivil p.1 p.2.1 p.2.2 * 86400000)
  | [ds, ts] =>
    match parseIsoYmd ds, parseIsoHms ts with
    | some p, some q =>
      some (daysFromCivil p.1 p.2.1 p.2.2 * 86400000
        + q.1 * 3600000 + q.2.1 * 60000 + q.2.2 * 1000)
    | _, _ => none
  | _ => none

/-- `parseSafeDate(iso)` from src/lib/utils.ts: `null` for a missing/empty input,
otherwise `new Date(iso)` guarded by `Number.isFinite(d.getTime())`. -/
def parseSafeDate (iso : Option String) : Option Int :=
  match iso with
  | none => none
  | some s => if s = "" then none else parseIsoDate s

/-! ## Events and bucket maps -/

/-- `TCalendarEvent` from src/types/Calendar.ts. `start`/`end` are declared as `Date`
but the drag code defends against `undefined` and Invalid values, hence
`Option JSDate`. The optional `allDay` flag is only ever used truthily, so it is a
plain `Bool`. -/
structure CEvent where
  id : String
  title : String
  description : Option String
  start : Option JSDate
  end_ : Option JSDate
  duration : Option Int
  type : Option String
  colour : Option String
  slot : Option Int
  allDay : Bool
  deriving Repr, DecidableEq

/-- `IEvent` from src/types/Calendar.ts (the backend shape; `start`/`end` are ISO
strings, possibly absent or unparsable). -/
structure IEvent where
  id : String
  title : String
  description : Option String
  start : Option String
  end_ : Option String
  allDay : Option Bool
  type : Option String
  colour : Option String
  deriving Repr, DecidableEq

/-- `Record<string, TCalendarEvent[]>`: the scheduled-events bucket map. -/
abbrev BucketMap := List (String × List CEvent)

/-- Property lookup `m[k]` on a JS object modelled as an association list. -/
def recGet {α : Type} (m : List (String × α)) (k : String) : Option α :=
  match m with
  | [] => none
  | (k2, v) :: rest => if k2 = k then some v else recGet rest k

/-- Property assignment `m[k] = v`: overwrite in place when the key exists (JS
objects keep first-insertion key order and hold each key at most once), otherwise
append at the end. -/
def recSet {α : Type} (m : List (String × α)) (k : String) (v : α) : List (String × α) :=
  match m with
  | [] => [(k, v)]
  | p :: rest => if p.1 = k then (k, v) :: rest else p :: recSet rest k v

/-- `delete m[k]`. -/
def recDelete {α : Type} (m : List (String × α)) (k : String) : List (String × α) :=
  match m with
  | [] => []
  | p :: rest => if p.1 = k then recDelete rest k else p :: recDelete rest k

/-- How many events with the given id a bucket list holds. -/
def countId (l : List CEvent) (i : String) : Nat :=
  (l.filter (fun ev => ev.id == i)).length

/-! ## The Slot Indexer (`makeEventKey`, `groupApiEventsToScheduled`) -/

/-- `makeEventKey(dt)` from src/lib/utils.ts: `event-YYYY-MM-DD-H-SLOT`, hour with no
leading zero, slot = `Math.floor(minutes / 15)`. -/
def makeEventKey (t : Int) : String :=
  "event-" ++ toString (getFullYear t) ++ "-" ++ pad2 (getMonth t + 1) ++ "-"
    ++ pad2 (getDate t) ++ "-" ++ toString (getHours t) ++ "-"
    ++ toString ((getMinutes t).fdiv 15)

/-- The all-day bucket key built inline in `groupApiEventsToScheduled`. -/
def allDayKey (t : Int) : String :=
  "all-day-" ++ toString (getFullYear t) ++ "-" ++ pad2 (getMonth t + 1) ++ "-"
    ++ pad2 (getDate t)

/-- The `TCalendarEvent` item built by one `reduce` step of
`groupApiEventsToScheduled` for an event whose start parsed to `start`:
`end` defaults to `start + 15` minutes, `duration` is clamped at zero. -/
def derivedItem (ev : IEvent) (start : Int) : CEvent :=
  let end_ := (parseSafeDate ev.end_).getD (start + 15 * 60000)
  let duration := max 0 (differenceInMinutes end_ start)
  { id := ev.id
    title := ev.title
    description := some ((ev.description).getD ev.title)
    start := some (some start)
    end_ := some (some end_)
    duration := some duration
    type := some (match ev.type with
      | some t => if t = "" then "other" else t
      | none => "other")
    colour := some ((ev.colour).getD "")
    slot := some ((getMinutes start).fdiv 15)
    allDay := ev.allDay.getD false }

/-- One `reduce` step of `groupApiEventsToScheduled`. -/
def groupStep (acc : BucketMap) (ev : IEvent) : BucketMap :=
  match parseSafeDate ev.start with
  | none => acc
  | some start =>
    let key := if ev.allDay.getD false then allDayKey start else makeEventKey start
    recSet acc key ((recGet acc key).getD [] ++ [derivedItem ev start])

/-- `groupApiEventsToScheduled(apiEvents)` from src/lib/utils.ts. -/
def groupApiEventsToScheduled (apiEvents : List IEvent) : BucketMap :=
  apiEvents.foldl groupStep []

/-! ## The Overlap Layout Engine (src/lib/layoutEvents.ts) -/

/-- `event.start?.getTime() ?? 0`: `some 0` when the start is `undefined`
(the nullish default), `none` when the start is an Invalid Date (NaN). -/
def startTO (e : CEvent) : Option Int :=
  match e.start with
  | none => some 0
  | some d => d

/-- `event.end?.getTime() ?? 0`, as `startTO`. -/
def endTO (e : CEvent) : Option Int :=
  match e.end_ with
  | none => some 0
  | some d => d

/-- JS subtraction with NaN propagation. -/
def jsSub (a b : Option Int) : Option Int :=
  match a, b with
  | some x, some y => some (x - y)
  | _, _ => none

/-- JS `<` (false whenever an operand is NaN). -/
def jsLtB (a b : Option Int) : Bool :=
  match a, b with
  | some x, some y => decide (x < y)
  | _, _ => false

/-- JS `>` (false whenever an operand is NaN). -/
def jsGtB (a b : Option Int) : Bool :=
  match a, b with
  | some x, some y => decide (y < x)
  | _, _ => false

/-- JS `>=` (false whenever an operand is NaN). -/
def jsGeB (a b : Option Int) : Bool :=
  match a, b with
  | some x, some y => decide (y ≤ x)
  | _, _ => false

/-- The comparator of the initial sort in `layoutEvents`: 0 when either event lacks
a start, else start difference, ties broken by longer duration first. A `none`
result models a NaN comparator value. -/
def sortCmp (a b : CEvent) : Option Int :=
  if a.start.isNone || b.start.isNone then some 0
  else
    let startDiff := jsSub (startTO a) (startTO b)
    if startDiff ≠ some 0 then startDiff
    else jsSub (jsSub (endTO b) (startTO b)) (jsSub (endTO a) (startTO a))

/-- `c < 0` on a JS comparator result (false for NaN). -/
def cmpNeg (c : Option Int) : Bool :=
  match c with
  | some v => decide (v < 0)
  | none => false

/-- Stable insertion modelling `Array.prototype.sort`: `x` goes after every earlier
element `z` with `sortCmp z x < 0` and before the first with `sortCmp z x ≥ 0`. -/
def sortInsert (x : CEvent) : List CEvent → List CEvent
  | [] => [x]
  | z :: zs => if cmpNeg (sortCmp z x) then z :: sortInsert x zs else x :: z :: zs

/-- `[...events].sort(comparator)` modelled as a stable sort. -/
def jsSortEvents : List CEvent → List CEvent
  | [] => []
  | x :: xs => sortInsert x (jsSortEvents xs)

/-- The cluster-forming sweep of `layoutEvents`: an event extends the current
cluster when its start is strictly before the running cluster end, which is then
raised to the maximum of the member ends. -/
def clustersGo (finished : List (List CEvent)) (cur : List CEvent) (curEnd : Option Int) :
    List CEvent → List (List CEvent)
  | [] => finished ++ [cur]
  | e :: rest =>
    if jsLtB (startTO e) curEnd then
      clustersGo finished (cur ++ [e])
        (if jsGtB (endTO e) curEnd then endTO e else curEnd) rest
    else
      clustersGo (finished ++ [cur]) [e] (endTO e) rest

/-- The clusters formed from the (sorted) event list. -/
def buildClusters : List CEvent → List (List CEvent)
  | [] => []
  | e :: rest => clustersGo [] [e] (endTO e) rest

/-- The end of the last event placed in a column (columns are never empty). -/
def colLastEnd (c : List CEvent) : Option Int :=
  match c.getLast? with
  | some ev => endTO ev
  | none => some 0

/-- Place one event into the first column whose last event ends at or before the
candidate's start; if none fits, open a new column at the right. -/
def placeInColumns (cols : List (List CEvent)) (e : CEvent) : List (List CEvent) :=
  match cols with
  | [] => [[e]]
  | c :: cs =>
    if jsGeB (startTO e) (colLastEnd c) then (c ++ [e]) :: cs
    else c :: placeInColumns cs e

/-- The greedy column packing of `layoutCluster`. -/
def packColumns (cluster : List CEvent) : List (List CEvent) :=
  cluster.foldl placeInColumns []

/-! ### IEEE-754 binary64 arithmetic

JavaScript numbers are IEEE-754 binary64 doubles, so the percentages computed
by `layoutCluster` (`100 / numColumns` and `i * width`) are not exact rationals
but correctly rounded (round-to-nearest, ties-to-even) values with a 53-bit
significand.  `fl` rounds an exact rational to the nearest such value; all
quantities arising here are normal and far below overflow, so neither
subnormals nor infinities need modelling. -/

/-- `2 ^ k` in `ℚ` for an integer (possibly negative) exponent. -/
def pow2 (k : Int) : ℚ := (2 : ℚ) ^ k

/-- The binary floor-logarithm of a positive rational: the unique `k` with
`2^k ≤ q < 2^(k+1)` (see `floorLog2_correct`). -/
def floorLog2 (q : ℚ) : Int :=
  let k0 : Int := (q.num.natAbs.log2 : Int) - (q.den.log2 : Int)
  if q < pow2 k0 then k0 - 1 else k0

/-- Round a rational to the nearest integer, ties to even. -/
def roundNearestEven (s : ℚ) : Int :=
  let n0 := ⌊s⌋
  if s - (n0 : ℚ) < 1/2 then n0
  else if 1/2 < s - (n0 : ℚ) then n0 + 1
  else if n0 % 2 = 0 then n0 else n0 + 1

/-- Round a positive rational to binary64: scale to a 53-bit significand and
round to the nearest integer, ties to even. -/
def flPos (q : ℚ) : ℚ :=
  (roundNearestEven (q / pow2 (floorLog2 q - 52)) : ℚ) * pow2 (floorLog2 q - 52)

/-- Round an exact rational to the nearest binary64 double (normal range). -/
def fl (q : ℚ) : ℚ :=
  if q = 0 then 0 else if 0 < q then flPos q else -flPos (-q)

/-- IEEE binary64 division: the correctly rounded exact quotient. -/
def jsDiv (a b : ℚ) : ℚ := fl (a / b)

/-- IEEE binary64 multiplication: the correctly rounded exact product. -/
def jsMul (a b : ℚ) : ℚ := fl (a * b)

/-- A layout entry: percentage `width` and `left` offset (binary64 values). -/
structure EventLayout where
  width : ℚ
  left : ℚ
  deriving Repr, DecidableEq

/-- `layoutCluster(cluster, layoutMap)`: all columns of a cluster share width
`100 / numColumns`; every event in column `i` gets `left = i * width`, both
computed in binary64. -/
def layoutCluster (cluster : List CEvent) (m : List (String × EventLayout)) :
    List (String × EventLayout) :=
  let columns := packColumns cluster
  let width : ℚ := jsDiv 100 (columns.length : ℚ)
  columns.enum.foldl
    (fun m2 p => p.2.foldl
      (fun m3 e => recSet m3 e.id ⟨width, jsMul (p.1 : ℚ) width⟩) m2) m

/-- `layoutEvents(events)` from src/lib/layoutEvents.ts. -/
def layoutEvents (events : List CEvent) : List (String × EventLayout) :=
  let sortedEvents := jsSortEvents events
  match sortedEvents with
  | [] => []
  | _ => (buildClusters sortedEvents).foldl (fun m c => layoutCluster c m) []

/-! ## The Drag Reconciliation Engine (src/hooks/useCalendarDrag.ts) -/

/-- date-fns `addMinutes` with NaN propagation in either argument. -/
def jsAddMinutes (d : JSDate) (n : Option Int) : JSDate :=
  match d, n with
  | some t, some k => some (t + k * 60000)
  | _, _ => none

/-- `makeMovedEvent(src, newStart, preserveEnd)`: an immutable copy with the new
start and, when `preserveEnd`, the end pushed out by the original duration in
whole minutes. `now` is the wall clock used by the `new Date()` fallbacks. -/
def makeMovedEvent (now : Int) (src : CEvent) (newStart : JSDate) (preserveEnd : Bool) :
    CEvent :=
  let originalStart : JSDate := match src.start with | some d => d | none => some now
  let originalEnd : JSDate := match src.end_ with | some d => d | none => some now
  let duration : Option Int :=
    match originalEnd, originalStart with
    | some e, some s => some (differenceInMinutes e s)
    | _, _ => none
  { src with
    start := some newStart
    end_ := if preserveEnd then some (jsAddMinutes newStart duration) else src.end_ }

/-- `buildDateTime(yearStr, monthStr, dayStr, hourStr, slotStr)`: `none` (an Invalid
Date) when any `parseInt` yields NaN. -/
def buildDateTime (ys ms ds hs ss : String) : JSDate :=
  match jsParseInt ys, jsParseInt ms, jsParseInt ds, jsParseInt hs, jsParseInt ss with
  | some y, some m, some d, some h, some sl =>
    some (mkLocalTime y (m - 1) d h (sl * 15) 0 0)
  | _, _, _, _, _ => none

/-- The remove-from-origin step shared by the drag-end handlers: runs only when
`activeFrom` is truthy and not the sentinel `'event-list'`; filters the id out of
the origin bucket (defaulting an absent bucket to `[]`) and deletes the key when
the filtered list is empty. -/
def removeFromOrigin (events : BucketMap) (activeFrom : Option String) (id : String) :
    BucketMap :=
  match activeFrom with
  | none => events
  | some f =>
    if f = "" ∨ f = "event-list" then events
    else
      let cur := ((recGet events f).getD []).filter (fun ev => ! (ev.id == id))
      if cur.isEmpty then recDelete events f else recSet events f cur

/-- The `'event-list'` sweep: filter the id out of every bucket, dropping keys whose
lists become empty. -/
def removeEverywhere (events : BucketMap) (id : String) : BucketMap :=
  (events.map (fun p => (p.1, p.2.filter (fun ev => ! (ev.id == id))))).filter
    (fun p => ! p.2.isEmpty)

/-- The outcome of `handleDragEnd`: the new bucket map, the list of events passed to
the store's `updatedEvent`, and the cleared drag state. -/
structure DragResult where
  events : BucketMap
  updates : List CEvent
  activeEvent : Option CEvent
  activeFrom : Option String
  deriving Repr, DecidableEq

/-- `handleDragEnd(event)` from useCalendarDrag.ts, as a function of the drag state
(`activeEvent`, `activeFrom`), the bucket map and the drop target id. `.error ()`
models an exception escaping the handler — date-fns `format` throws a RangeError on
an Invalid Date — in which case neither the bucket map nor the drag state was
touched (the trailing cleanup is skipped). -/
def handleDragEnd (now : Int) (activeEvent : Option CEvent) (activeFrom : Option String)
    (events : BucketMap) (overId : Option String) : Except Unit DragResult :=
  match activeEvent with
  | none => .ok ⟨events, [], none, none⟩
  | some ae =>
    match overId with
    | none => .ok ⟨events, [], none, none⟩
    | some oid =>
      if strStartsWith oid "event-" then
        match jsSplit oid '-' with
        | _ :: ys :: ms :: ds :: hs :: ss :: _ =>
          match buildDateTime ys ms ds hs ss with
          | none => .error ()
          | some newDT =>
            let originalStart : JSDate :=
              match ae.start with | some d => d | none => some newDT
            match originalStart with
            | none => .error ()
            | some os =>
              if formatFull newDT ≠ formatFull os then
                let moved0 := makeMovedEvent now ae (some newDT) (! ae.allDay)
                let moved1 := { moved0 with slot := jsParseInt ss }
                let moved := if ae.allDay then
                    { moved1 with
                      allDay := false
                      end_ := some (some (newDT + 60 * 60000))
                      duration := some 60 }
                  else moved1
                let ev1 := removeFromOrigin events activeFrom ae.id
                let cellKey := "event-" ++ ys ++ "-" ++ ms ++ "-" ++ ds ++ "-"
                  ++ hs ++ "-" ++ ss
                let ev2 := recSet ev1 cellKey ((recGet ev1 cellKey).getD [] ++ [moved])
                .ok ⟨ev2, [moved], none, none⟩
              else .ok ⟨events, [], none, none⟩
        | _ => .error ()
      else if strStartsWith oid "all-day-" then
        match jsSplit oid '-' with
        | _ :: _ :: ys :: ms :: ds :: _ =>
          match jsParseInt ys, jsParseInt ms, jsParseInt ds with
          | some y, some m, some d =>
            let newDate := mkLocalTime y (m - 1) d 0 0 0 0
            let originalStart : JSDate :=
              match ae.start with | some dd => dd | none => some now
            match originalStart with
            | none => .error ()
            | some os =>
              let isSameDay := formatYmd newDate = formatYmd os
              if (! ae.allDay) = true ∨ ¬ isSameDay then
                let moved := { ae with
                               start := some (some newDate)
                               end_ := some (some newDate)
                               allDay := true
                               slot := none }
                let ev1 := removeFromOrigin events activeFrom ae.id
                let newKey := "all-day-" ++ ys ++ "-" ++ ms ++ "-" ++ ds
                let ev2 := recSet ev1 newKey ((recGet ev1 newKey).getD [] ++ [moved])
                .ok ⟨ev2, [moved], none, none⟩
              else .ok ⟨events, [], none, none⟩
          | _, _, _ => .error ()
        | _ => .error ()
      else if oid = "event-list" then
        .ok ⟨removeEverywhere events ae.id, [], none, none⟩
      else .ok ⟨events, [], none, none⟩

/-! ## The month-granularity drag-end variant -/

/-- `new Date(t)` field-preserving setters (no 0..99 year mapping, unlike the
multi-argument constructor). -/
def mkTimeRaw (y monIdx d h min s ms : Int) : Int :=
  let ym := y + monIdx.fdiv 12
  let mn := monIdx.emod 12
  (daysFromCivil ym (mn + 1) 1 + (d - 1)) * 86400000
    + h * 3600000 + min * 60000 + s * 1000 + ms

/-- `Date.prototype.getMilliseconds` on a valid time value. -/
def getMilliseconds (t : Int) : Int := t.emod 1000

/-- `d.setFullYear(y)` on a valid date, normalising by carrying. -/
def setFullYear (t y : Int) : Int :=
  mkTimeRaw y (getMonth t) (getDate t) (getHours t) (getMinutes t) (getSeconds t)
    (getMilliseconds t)

/-- `d.setMonth(m)` on a valid date, normalising by carrying. -/
def setMonth (t m : Int) : Int :=
  mkTimeRaw (getFullYear t) m (getDate t) (getHours t) (getMinutes t) (getSeconds t)
    (getMilliseconds t)

/-- `d.setDate(day)` on a valid date, normalising by carrying. -/
def setDate (t d : Int) : Int :=
  mkTimeRaw (getFullYear t) (getMonth t) d (getHours t) (getMinutes t) (getSeconds t)
    (getMilliseconds t)

/-- `d.setHours(0, 0, 0, 0)` on a valid date. -/
def setHours0 (t : Int) : Int :=
  mkTimeRaw (getFullYear t) (getMonth t) (getDate t) 0 0 0 0

/-- The month handler's hour/slot choice: when the origin key splits into at least
six parts its hour and slot strings are preserved, otherwise the drop target's are
used. -/
def monthPreservedHourSlot (activeFrom : Option String) (hs ss : String) : String × String :=
  let prevParts := match activeFrom with | some f => jsSplit f '-' | none => []
  if prevParts.length ≥ 6 then
    ((prevParts.get? 4).getD "", (prevParts.get? 5).getD "")
  else (hs, ss)

/-- The state read and written by `handleMonthDragEnd`: the re-entrancy flag, the
`{key, ts}` de-duplication descriptor, the drag state and the bucket map. -/
structure MonthState where
  isHandling : Bool
  lastDrag : Option (String × Int)
  activeEvent : Option CEvent
  activeFrom : Option String
  events : BucketMap
  deriving Repr, DecidableEq

/-- The outcome of `handleMonthDragEnd`: the new state, the events passed to the
store's `updatedEvent`, and whether an exception escaped (after the `finally`
cleanup ran). -/
structure MonthOut where
  state : MonthState
  updates : List CEvent
  threw : Bool
  deriving Repr, DecidableEq

/-- `handleMonthDragEnd(event)` from useCalendarDrag.ts. The re-entrancy branch
returns before the `try`, so it changes nothing; every other exit passes through
the `finally` cleanup that resets the flag and clears the drag state. `now` is
`Date.now()` at this notification. -/
def handleMonthDragEnd (st : MonthState) (selectedDate : Option Int) (now : Int)
    (activeId : Option String) (overId : Option String) : MonthOut :=
  if st.isHandling then ⟨st, [], false⟩
  else
    let key := (activeId.getD "") ++ "::" ++ (overId.getD "")
    let isDup := match st.lastDrag with
      | some p => p.1 == key && decide (now - p.2 < 300)
      | none => false
    if isDup then
      ⟨{ st with isHandling := false, activeEvent := none, activeFrom := none }, [], false⟩
    else
      let last2 : Option (String × Int) := some (key, now)
      let finish := fun (events : BucketMap) (ups : List CEvent) (thr : Bool) =>
        (⟨⟨false, last2, none, none, events⟩, ups, thr⟩ : MonthOut)
      match st.activeEvent, overId with
      | some ae, some oid =>
        if strStartsWith oid "event-" then
          match jsSplit oid '-' with
          | _ :: ys :: ms :: ds :: hs :: ss :: _ =>
            match jsParseInt ys, jsParseInt ms, jsParseInt ds with
            | some y, some m, some d =>
              let base := selectedDate.getD now
              let newDateOnly := setHours0 (setDate (setMonth (setFullYear base y) (m - 1)) d)
              let originalStart : JSDate :=
                match ae.start with | some dd => dd | none => some newDateOnly
              match originalStart with
              | none => finish st.events [] true
              | some os =>
                if formatYmd newDateOnly = formatYmd os then finish st.events [] false
                else
                  let ev1 := removeFromOrigin st.events st.activeFrom ae.id
                  let hslot := monthPreservedHourSlot st.activeFrom hs ss
                  let newDT := buildDateTime ys ms ds hslot.1 hslot.2
                  let moved0 := makeMovedEvent now ae newDT true
                  let moved := { moved0 with slot := jsParseInt hslot.2 }
                  let newCellKey := "event-" ++ ys ++ "-" ++ ms ++ "-" ++ ds ++ "-"
                    ++ hslot.1 ++ "-" ++ hslot.2
                  let ev2 := recSet ev1 newCellKey ((recGet ev1 newCellKey).getD [] ++ [moved])
                  finish ev2 [moved] false
            | _, _, _ => finish st.events [] true
          | _ => finish st.events [] true
        else if oid = "event-list" then
          finish (removeEverywhere st.events ae.id) [] false
        else finish st.events [] false
      | _, _ => finish st.events [] false

/-! ## Association-list record lemmas -/

theorem recGet_recSet_self {α : Type} (m : List (String × α)) (k : String) (v : α) :
    recGet (recSet m k v) k = some v := by
  induction m with
  | nil => simp [recSet, recGet]
  | cons p rest ih =>
    by_cases hp : p.1 = k
    · simp [recSet, recGet, hp]
    · simpa [recSet, recGet, hp] using ih

theorem recGet_recSet_ne {α : Type} (m : List (String × α)) (k k2 : String) (v : α)
    (hk : k2 ≠ k) :
    recGet (recSet m k v) k2 = recGet m k2 := by
  induction m with
  | nil =>
    have : ¬ k = k2 := fun h => hk h.symm
    simp [recSet, recGet, this]
  | cons p rest ih =>
    by_cases hp : p.1 = k
    · have h1 : ¬ k = k2 := fun h => hk h.symm
      have h2 : ¬ p.1 = k2 := by rw [hp]; exact h1
      simp [recSet, recGet, hp, h1, h2]
    · by_cases hp2 : p.1 = k2
      · have h3 : ¬ k2 = k := hk
        simp [recSet, recGet, hp, hp2, h3]
      · simpa [recSet, recGet, hp, hp2] using ih

theorem recGet_recDelete_self {α : Type} (m : List (String × α)) (k : String) :
    recGet (recDelete m k) k = none := by
  induction m with
  | nil => simp [recDelete, recGet]
  | cons p rest ih =>
    by_cases hp : p.1 = k
    · simpa [recDelete, hp] using ih
    · simpa [recDelete, recGet, hp] using ih

theorem recGet_recDelete_ne {α : Type} (m : List (String × α)) (k k2 : String)
    (hk : k2 ≠ k) :
    recGet (recDelete m k) k2 = recGet m k2 := by
  induction m with
  | nil => simp [recDelete, recGet]
  | cons p rest ih =>
    by_cases hp : p.1 = k
    · have h2 : ¬ k = k2 := fun h => hk h.symm
      simpa [recDelete, recGet, hp, h2] using ih
    · by_cases hp2 : p.1 = k2
      · have h3 : ¬ k2 = k := hk
        simp [recDelete, recGet, hp, hp2, h3]
      · simpa [recDelete, recGet, hp, hp2] using ih

theorem countId_append (l1 l2 : List CEvent) (i : String) :
    countId (l1 ++ l2) i = countId l1 i + countId l2 i := by
  simp [countId, List.filter_append]

theorem countId_filter_out (l : List CEvent) (i : String) :
    countId (l.filter (fun ev => ! (ev.id == i))) i = 0 := by
  simp [countId, List.filter_filter]


/-! ## Claims about the Slot Indexer -/

theorem groupStep_drop (acc : BucketMap) (ev : IEvent)
    (h : parseSafeDate ev.start = none) : groupStep acc ev = acc := by
  simp [groupStep, h]

/-- C7: an input event whose `start` is missing or unparsable is dropped silently by
the indexer: the bucket map is exactly the one produced without that event (so no
bucket contains it), and indexing is total (no error is raised). -/
theorem indexer_drops_unparsable_start (ev : IEvent)
    (h : parseSafeDate ev.start = none) (l1 l2 : List IEvent) :
    groupApiEventsToScheduled (l1 ++ ev :: l2) = groupApiEventsToScheduled (l1 ++ l2) := by
  unfold groupApiEventsToScheduled
  rw [List.foldl_append, List.foldl_cons, groupStep_drop _ _ h, ← List.foldl_append]

theorem indexer_drops_unparsable_start_witness :
    parseSafeDate (some "definitely-not-a-date") = none ∧
      groupApiEventsToScheduled
          ([] ++ { id := "9", title := "bad", description := none,
                   start := some "definitely-not-a-date", end_ := none, allDay := none,
                   type := none, colour := none } ::
               [{ id := "1", title := "ok", description := none,
                  start := some "2023-10-27T10:00:00", end_ := none, allDay := none,
                  type := none, colour := none }])
        = groupApiEventsToScheduled
            ([] ++ [{ id := "1", title := "ok", description := none,
                      start := some "2023-10-27T10:00:00", end_ := none, allDay := none,
                      type := none, colour := none }]) :=
  ⟨by decide,
   indexer_drops_unparsable_start _ (by decide) [] _⟩

/-- C6: an indexed event with a valid start is filed under
`all-day-<year>-<2-digit month>-<2-digit day>` (built from the start's date fields
only) when `allDay` is truthy, and otherwise under
`event-<year>-<2-digit month>-<2-digit day>-<hour no leading zero>-<floor(minute/15)>`;
starts at 10:00, 10:15, 10:44 and 10:59 give quarter slots 0, 1, 2 and 3. -/
theorem bucket_key_shape :
    (∀ (ev : IEvent) (t : Int), parseSafeDate ev.start = some t →
      groupApiEventsToScheduled [ev]
        = [((if ev.allDay.getD false then
              "all-day-" ++ toString (getFullYear t) ++ "-" ++ pad2 (getMonth t + 1)
                ++ "-" ++ pad2 (getDate t)
            else
              "event-" ++ toString (getFullYear t) ++ "-" ++ pad2 (getMonth t + 1)
                ++ "-" ++ pad2 (getDate t) ++ "-" ++ toString (getHours t) ++ "-"
                ++ toString ((getMinutes t).fdiv 15)),
            [derivedItem ev t])])
    ∧ (parseSafeDate (some "2023-10-27T10:00:00")).map makeEventKey
        = some "event-2023-10-27-10-0"
    ∧ (parseSafeDate (some "2023-10-27T10:15:00")).map makeEventKey
        = some "event-2023-10-27-10-1"
    ∧ (parseSafeDate (some "2023-10-27T10:44:00")).map makeEventKey
        = some "event-2023-10-27-10-2"
    ∧ (parseSafeDate (some "2023-10-27T10:59:00")).map makeEventKey
        = some "event-2023-10-27-10-3" := by
  refine ⟨?_, by decide, by decide, by decide, by decide⟩
  intro ev t h
  by_cases had : ev.allDay.getD false
  · simp [groupApiEventsToScheduled, groupStep, h, had, recSet, recGet, allDayKey]
  · simp [groupApiEventsToScheduled, groupStep, h, had, recSet, recGet, makeEventKey]

theorem bucket_key_shape_witness :
    parseSafeDate (some "2023-10-27T10:20:00") = some 1698402000000 ∧
      groupApiEventsToScheduled
          [{ id := "1", title := "E", description := none,
             start := some "2023-10-27T10:20:00", end_ := none, allDay := some true,
             type := none, colour := none }]
        = [(("all-day-" ++ toString (getFullYear 1698402000000) ++ "-"
              ++ pad2 (getMonth 1698402000000 + 1) ++ "-" ++ pad2 (getDate 1698402000000)),
            [derivedItem
              { id := "1", title := "E", description := none,
                start := some "2023-10-27T10:20:00", end_ := none, allDay := some true,
                type := none, colour := none } 1698402000000])] := by
  refine ⟨by decide, ?_⟩
  have h := bucket_key_shape.1
    { id := "1", title := "E", description := none,
      start := some "2023-10-27T10:20:00", end_ := none, allDay := some true,
      type := none, colour := none } 1698402000000 (by decide)
  simpa using h

/-- C8: the derived event of a valid start `t` has
`duration = max 0 (minutes(end - start))` with `end` defaulting to `t + 15` minutes
when missing or unparsable; the duration is never negative; with no parsable end the
duration is exactly 15 and the event is bucketed under the key derived from `t`. -/
theorem indexer_duration_rule (ev : IEvent) (t : Int)
    (h : parseSafeDate ev.start = some t) :
    (derivedItem ev t).duration
        = some (max 0 (differenceInMinutes ((parseSafeDate ev.end_).getD (t + 15 * 60000)) t))
      ∧ (0 : Int) ≤ ((derivedItem ev t).duration).getD 0
      ∧ (parseSafeDate ev.end_ = none →
          (derivedItem ev t).duration = some 15
            ∧ (derivedItem ev t).end_ = some (some (t + 15 * 60000)))
      ∧ groupApiEventsToScheduled [ev]
          = [((if ev.allDay.getD false then allDayKey t else makeEventKey t),
              [derivedItem ev t])] := by
  refine ⟨rfl, ?_, ?_, ?_⟩
  · simp [derivedItem]
  · intro hend
    refine ⟨?_, ?_⟩
    · have h15 : differenceInMinutes (t + 900000) t = 15 := by
        unfold differenceInMinutes
        have h9 : t + 900000 - t = 900000 := by ring
        rw [h9]
        decide
      simp [derivedItem, hend, h15]
    · simp [derivedItem, hend]
  · simp [groupApiEventsToScheduled, groupStep, h, recSet, recGet]

theorem indexer_duration_rule_witness :
    parseSafeDate (some "2023-10-27T10:00:00") = some 1698400800000 ∧
      (derivedItem
          { id := "1", title := "E", description := none,
            start := some "2023-10-27T10:00:00", end_ := some "garbled", allDay := none,
            type := none, colour := none } 1698400800000).duration = some 15 := by
  refine ⟨by decide, ?_⟩
  have h := (indexer_duration_rule
    { id := "1", title := "E", description := none,
      start := some "2023-10-27T10:00:00", end_ := some "garbled", allDay := none,
      type := none, colour := none } 1698400800000 (by decide)).2.2.1 (by decide)
  exact h.1

/-! ## Claims about the Drag Reconciliation Engine -/

/-- C5: dropping an all-day event on a timed bucket target (with a changed instant)
produces a moved copy with `allDay = false`, `duration = 60` and
`end = new start + 60` minutes, regardless of the event's previous duration; the
copy is the one persisted and inserted into the destination bucket. -/
theorem allday_to_timed_default_duration
    (now : Int) (ae : CEvent) (activeFrom : Option String) (events : BucketMap)
    (oid ys ms ds hs ss : String)
    (had : ae.allDay = true)
    (hpre : strStartsWith oid "event-" = true)
    (hsplit : jsSplit oid '-' = ["event", ys, ms, ds, hs, ss])
    (d : Int) (hbuild : buildDateTime ys ms ds hs ss = some d)
    (s : Int) (hstart : ae.start = some (some s))
    (hne : formatFull d ≠ formatFull s) :
    ∃ (r : DragResult) (moved : CEvent),
      handleDragEnd now (some ae) activeFrom events (some oid) = .ok r
      ∧ r.updates = [moved]
      ∧ moved.allDay = false
      ∧ moved.duration = some 60
      ∧ moved.start = some (some d)
      ∧ moved.end_ = some (some (d + 60 * 60000))
      ∧ moved ∈ (recGet r.events
          ("event-" ++ ys ++ "-" ++ ms ++ "-" ++ ds ++ "-" ++ hs ++ "-" ++ ss)).getD [] := by
  have hmain : handleDragEnd now (some ae) activeFrom events (some oid)
      = .ok ⟨recSet (removeFromOrigin events activeFrom ae.id)
               ("event-" ++ ys ++ "-" ++ ms ++ "-" ++ ds ++ "-" ++ hs ++ "-" ++ ss)
               ((recGet (removeFromOrigin events activeFrom ae.id)
                   ("event-" ++ ys ++ "-" ++ ms ++ "-" ++ ds ++ "-" ++ hs ++ "-" ++ ss)).getD []
                 ++ [{ makeMovedEvent now ae (some d) (! ae.allDay) with
                       slot := jsParseInt ss, allDay := false,
                       end_ := some (some (d + 60 * 60000)), duration := some 60 }]),
             [{ makeMovedEvent now ae (some d) (! ae.allDay) with
                slot := jsParseInt ss, allDay := false,
                end_ := some (some (d + 60 * 60000)), duration := some 60 }], none, none⟩ := by
    simp only [handleDragEnd, hpre, hsplit, hbuild, hstart, had, if_true]
    rw [if_pos hne]
  refine ⟨_, _, hmain, rfl, rfl, rfl, rfl, rfl, ?_⟩
  rw [recGet_recSet_self]
  simp

/-- A successful `recGet` returns an entry of the list. -/
theorem recGet_mem {α : Type} (m : List (String × α)) (k : String) (v : α)
    (h : recGet m k = some v) : (k, v) ∈ m := by
  induction m with
  | nil => simp [recGet] at h
  | cons p rest ih =>
    by_cases hp : p.1 = k
    · simp only [recGet, hp, if_pos] at h
      cases h
      have hpk : (k, p.2) = p := by rw [← hp]
      rw [hpk]
      exact List.mem_cons_self p rest
    · simp only [recGet, hp, if_neg, not_false_eq_true] at h
      exact List.mem_cons_of_mem _ (ih h)

/-- Keys other than the origin are untouched by the remove-from-origin step. -/
theorem removeFromOrigin_get_ne (events : BucketMap) (origin k id : String)
    (hk : k ≠ origin) :
    recGet (removeFromOrigin events (some origin) id) k = recGet events k := by
  simp only [removeFromOrigin]
  by_cases h0 : origin = "" ∨ origin = "event-list"
  · rw [if_pos h0]
  · rw [if_neg h0]
    by_cases he : (((recGet events origin).getD []).filter
        (fun ev => ! (ev.id == id))).isEmpty
    · simp only [he, if_pos]
      exact recGet_recDelete_ne events origin k hk
    · simp only [he, if_neg, Bool.false_eq_true, not_false_eq_true]
      exact recGet_recSet_ne events origin k _ hk

/-- Timed-bucket events used by the closed drag-end evaluations. -/
def timedEvent : CEvent :=
  { id := "5", title := "meeting", description := none,
    start := some (some 1698400800000), end_ := some (some 1698404400000),
    duration := some 60, type := none, colour := none, slot := some 0, allDay := false }

/-- A bucket map holding `timedEvent` in its slot bucket. -/
def timedMap : BucketMap := [("event-2023-10-27-10-0", [timedEvent])]

/-- C3: a drag-end with no active event, no target, or an unrecognized target key is
a logical cancel (no mutation, no store call, state cleared), and so is a drop on
the event's own position; but a malformed `event-` key with too few fields makes
`buildDateTime` yield an Invalid Date and date-fns `format` then throws a
RangeError, so the handler raises instead of cancelling and the cleanup is
skipped — contradicting the claim for the malformed-key case. -/
theorem drag_cancel_paths_and_malformed_key_throws :
    handleDragEnd 0 none (some "event-2023-10-27-10-0") timedMap
        (some "event-2023-10-28-11-0") = .ok ⟨timedMap, [], none, none⟩
    ∧ handleDragEnd 0 (some timedEvent) (some "event-2023-10-27-10-0") timedMap none
        = .ok ⟨timedMap, [], none, none⟩
    ∧ handleDragEnd 0 (some timedEvent) (some "event-2023-10-27-10-0") timedMap
        (some "mystery-target") = .ok ⟨timedMap, [], none, none⟩
    ∧ handleDragEnd 0 (some timedEvent) (some "event-2023-10-27-10-0") timedMap
        (some "event-2023-10-27-10-0") = .ok ⟨timedMap, [], none, none⟩
    ∧ handleDragEnd 0 (some timedEvent) (some "event-2023-10-27-10-0") timedMap
        (some "event-2023-10") = .error () := by
  exact ⟨rfl, rfl, rfl, rfl, rfl⟩

/-- C1 (amended): a drag-end on a well-formed timed bucket target whose instant
differs from the active timed event's start produces a moved copy with the same id
whose `end - start` is the original duration truncated to whole minutes
(`differenceInMinutes`); the copy is a new value, it is persisted once, it is
appended to the destination bucket where it then occurs exactly once, and —
provided the destination bucket differs from the origin — the id disappears from
the origin bucket, whose key is deleted when its list becomes empty; the drag state
is cleared. -/
theorem drag_move_buckets_and_truncated_duration
    (now : Int) (ae : CEvent) (origin : String) (events : BucketMap)
    (oid ys ms ds hs ss : String)
    (had : ae.allDay = false)
    (hpre : strStartsWith oid "event-" = true)
    (hsplit : jsSplit oid '-' = ["event", ys, ms, ds, hs, ss])
    (d : Int) (hbuild : buildDateTime ys ms ds hs ss = some d)
    (s en : Int) (hstart : ae.start = some (some s)) (hend : ae.end_ = some (some en))
    (hne : formatFull d ≠ formatFull s)
    (horig1 : origin ≠ "") (horig2 : origin ≠ "event-list")
    (hunique : ∀ p ∈ events, p.1 ≠ origin → countId p.2 ae.id = 0) :
    ∃ (r : DragResult) (moved : CEvent),
      handleDragEnd now (some ae) (some origin) events (some oid) = .ok r
      ∧ r.updates = [moved]
      ∧ moved.id = ae.id
      ∧ moved.start = some (some d)
      ∧ moved.end_ = some (some (d + differenceInMinutes en s * 60000))
      ∧ moved ≠ ae
      ∧ r.activeEvent = none ∧ r.activeFrom = none
      ∧ countId ((recGet r.events
          ("event-" ++ ys ++ "-" ++ ms ++ "-" ++ ds ++ "-" ++ hs ++ "-" ++ ss)).getD [])
          ae.id = 1
      ∧ (origin ≠ "event-" ++ ys ++ "-" ++ ms ++ "-" ++ ds ++ "-" ++ hs ++ "-" ++ ss →
          countId ((recGet r.events origin).getD []) ae.id = 0
          ∧ ((((recGet events origin).getD []).filter
                (fun x => ! (x.id == ae.id))).isEmpty = true →
              recGet r.events origin = none)) := by
  have hds : d ≠ s := fun h => hne (h ▸ rfl)
  have hmain : handleDragEnd now (some ae) (some origin) events (some oid)
      = .ok ⟨recSet (removeFromOrigin events (some origin) ae.id)
               ("event-" ++ ys ++ "-" ++ ms ++ "-" ++ ds ++ "-" ++ hs ++ "-" ++ ss)
               ((recGet (removeFromOrigin events (some origin) ae.id)
                   ("event-" ++ ys ++ "-" ++ ms ++ "-" ++ ds ++ "-" ++ hs ++ "-" ++ ss)).getD []
                 ++ [{ makeMovedEvent now ae (some d) (! ae.allDay) with
                       slot := jsParseInt ss }]),
             [{ makeMovedEvent now ae (some d) (! ae.allDay) with slot := jsParseInt ss }],
             none, none⟩ := by
    simp only [handleDragEnd, hpre, hsplit, hbuild, hstart, had, Bool.not_false, if_true,
      Bool.false_eq_true, if_false]
    rw [if_pos hne]
  set destKey := "event-" ++ ys ++ "-" ++ ms ++ "-" ++ ds ++ "-" ++ hs ++ "-" ++ ss
    with hdk
  set ev1 := removeFromOrigin events (some origin) ae.id with hev1
  set moved : CEvent :=
    { makeMovedEvent now ae (some d) (! ae.allDay) with slot := jsParseInt ss } with hmv
  have hmovedid : moved.id = ae.id := rfl
  have hmovedstart : moved.start = some (some d) := rfl
  have hmovedend : moved.end_ = some (some (d + differenceInMinutes en s * 60000)) := by
    rw [hmv]
    show (makeMovedEvent now ae (some d) (! ae.allDay)).end_ = _
    rw [had]
    simp only [makeMovedEvent, hstart, hend, Bool.not_false, if_pos, jsAddMinutes]
  have hcount0 : countId ((recGet ev1 destKey).getD []) ae.id = 0 := by
    by_cases hod : origin = destKey
    · rw [hev1, ← hod]
      simp only [removeFromOrigin]
      have h0 : ¬ (origin = "" ∨ origin = "event-list") := by
        intro h
        rcases h with h | h
        exacts [horig1 h, horig2 h]
      rw [if_neg h0]
      by_cases he : (((recGet events origin).getD []).filter
          (fun ev => ! (ev.id == ae.id))).isEmpty
      · simp only [he, if_pos, recGet_recDelete_self]
        simp [countId]
      · simp only [he, if_neg, Bool.false_eq_true, not_false_eq_true,
          recGet_recSet_self, Option.getD_some]
        exact countId_filter_out _ _
    · rw [hev1, removeFromOrigin_get_ne events origin destKey ae.id
        (fun h => hod h.symm)]
      cases hvg : recGet events destKey with
      | none => simp [countId]
      | some v =>
        have := hunique (destKey, v) (recGet_mem _ _ _ hvg) (fun h => hod h.symm)
        simpa using this
  refine ⟨_, _, hmain, rfl, hmovedid, hmovedstart, hmovedend, ?_, rfl, rfl, ?_, ?_⟩
  · intro h
    apply hds
    have h2 := congrArg CEvent.start h
    rw [hmovedstart, hstart] at h2
    exact Option.some.inj (Option.some.inj h2)
  · show countId ((recGet (recSet ev1 destKey ((recGet ev1 destKey).getD []
        ++ [moved])) destKey).getD []) ae.id = 1
    rw [recGet_recSet_self, Option.getD_some, countId_append, hcount0]
    have hbeq : (moved.id == ae.id) = true := by
      rw [hmovedid]
      exact beq_self_eq_true ae.id
    simp [countId, List.filter_cons, hbeq]
  · intro hod
    have hne2 : origin ≠ destKey := hod
    constructor
    · show countId ((recGet (recSet ev1 destKey _) origin).getD []) ae.id = 0
      rw [recGet_recSet_ne _ _ _ _ hne2, hev1]
      simp only [removeFromOrigin]
      have h0 : ¬ (origin = "" ∨ origin = "event-list") := by
        intro h
        rcases h with h | h
        exacts [horig1 h, horig2 h]
      rw [if_neg h0]
      by_cases he : (((recGet events origin).getD []).filter
          (fun ev => ! (ev.id == ae.id))).isEmpty
      · simp only [he, if_pos, recGet_recDelete_self]
        simp [countId]
      · simp only [he, if_neg, Bool.false_eq_true, not_false_eq_true,
          recGet_recSet_self, Option.getD_some]
        exact countId_filter_out _ _
    · intro hemp
      show recGet (recSet ev1 destKey _) origin = none
      rw [recGet_recSet_ne _ _ _ _ hne2, hev1]
      simp only [removeFromOrigin]
      have h0 : ¬ (origin = "" ∨ origin = "event-list") := by
        intro h
        rcases h with h | h
        exacts [horig1 h, horig2 h]
      rw [if_neg h0, if_pos hemp]
      exact recGet_recDelete_self events origin

/-- A timed event whose duration is not a whole number of minutes (10:05:30 to
10:36:00, i.e. 30.5 minutes) sitting in the quarter-slot bucket of its start. -/
def cexEvent : CEvent :=
  { id := "7", title := "standup", description := none,
    start := some (some 1698401130000), end_ := some (some 1698402960000),
    duration := some 30, type := none, colour := none, slot := some 0, allDay := false }

/-- The bucket map holding `cexEvent`. -/
def cexMap : BucketMap := [("event-2023-10-27-10-0", [cexEvent])]

/-- Equality of drag-handler outcomes is decidable (used to evaluate the engine at
concrete inputs). -/
instance : DecidableEq (Except Unit DragResult) := fun a b =>
  match a, b with
  | .ok x, .ok y =>
    if h : x = y then .isTrue (by rw [h]) else .isFalse (by simp [h])
  | .error x, .error y =>
    match x, y with
    | (), () => .isTrue rfl
  | .ok _, .error _ => .isFalse (by simp)
  | .error _, .ok _ => .isFalse (by simp)

/-- The moved copy the engine produces for the counterexample drop below. -/
def cexMoved : CEvent :=
  { cexEvent with start := some (some 1698400800000), end_ := some (some 1698402600000) }

/-- C1 counterexample: dropping `cexEvent` (10:05:30–10:36:00, 30.5 minutes) onto
its own bucket's cell `event-2023-10-27-10-0` (instant 10:00:00, which differs from
the start) produces a moved copy whose `end - start` is 1 800 000 ms (30 minutes),
not the original 1 830 000 ms (30.5 minutes), and the event's id still occurs once
in its origin bucket afterwards — refuting both the duration-preservation and the
gone-from-origin conjuncts of the claim as stated. -/
theorem drag_move_claim_counterexample :
    handleDragEnd 0 (some cexEvent) (some "event-2023-10-27-10-0") cexMap
        (some "event-2023-10-27-10-0")
      = .ok ⟨[("event-2023-10-27-10-0", [cexMoved])], [cexMoved], none, none⟩
    ∧ cexMoved.id = cexEvent.id
    ∧ jsSub (cexMoved.end_.getD none) (cexMoved.start.getD none) = some 1800000
    ∧ jsSub (cexEvent.end_.getD none) (cexEvent.start.getD none) = some 1830000
    ∧ ¬ jsSub (cexMoved.end_.getD none) (cexMoved.start.getD none)
        = jsSub (cexEvent.end_.getD none) (cexEvent.start.getD none)
    ∧ countId [cexMoved] cexEvent.id = 1 := by
  refine ⟨by decide, by decide, by decide, by decide, by decide, by decide⟩

theorem drag_move_buckets_and_truncated_duration_witness :
    formatFull 1698415200000 ≠ formatFull 1698400800000
    ∧ (∀ p ∈ timedMap, p.1 ≠ "event-2023-10-27-10-0" → countId p.2 timedEvent.id = 0)
    ∧ (∃ (r : DragResult) (moved : CEvent),
        handleDragEnd 0 (some timedEvent) (some "event-2023-10-27-10-0") timedMap
            (some "event-2023-10-27-14-0") = .ok r
        ∧ r.updates = [moved]
        ∧ moved.id = timedEvent.id
        ∧ moved.start = some (some 1698415200000)
        ∧ moved.end_ = some (some (1698415200000
            + differenceInMinutes 1698404400000 1698400800000 * 60000))
        ∧ moved ≠ timedEvent
        ∧ r.activeEvent = none ∧ r.activeFrom = none
        ∧ countId ((recGet r.events
            ("event-" ++ "2023" ++ "-" ++ "10" ++ "-" ++ "27" ++ "-" ++ "14" ++ "-" ++ "0")).getD [])
            timedEvent.id = 1
        ∧ ("event-2023-10-27-10-0"
              ≠ "event-" ++ "2023" ++ "-" ++ "10" ++ "-" ++ "27" ++ "-" ++ "14" ++ "-" ++ "0" →
            countId ((recGet r.events "event-2023-10-27-10-0").getD []) timedEvent.id = 0
            ∧ ((((recGet timedMap "event-2023-10-27-10-0").getD []).filter
                  (fun x => ! (x.id == timedEvent.id))).isEmpty = true →
                recGet r.events "event-2023-10-27-10-0" = none))) :=
  ⟨by decide, by decide,
   drag_move_buckets_and_truncated_duration 0 timedEvent "event-2023-10-27-10-0" timedMap
     "event-2023-10-27-14-0" "2023" "10" "27" "14" "0"
     (by decide) (by decide) (by decide)
     1698415200000 (by decide)
     1698400800000 1698404400000 (by decide) (by decide)
     (by decide) (by decide) (by decide) (by decide)⟩

/-- The all-day event and bucket map used to witness the all-day-to-timed rule. -/
def adEvent : CEvent :=
  { id := "8", title := "holiday", description := none,
    start := some (some 1698364800000), end_ := some (some 1698364800000),
    duration := none, type := none, colour := none, slot := none, allDay := true }

/-- The bucket map holding `adEvent` in its all-day bucket. -/
def adMap : BucketMap := [("all-day-2023-10-27", [adEvent])]

theorem allday_to_timed_default_duration_witness :
    adEvent.allDay = true
    ∧ buildDateTime "2023" "10" "28" "9" "2" = some 1698485400000
    ∧ formatFull 1698485400000 ≠ formatFull 1698364800000
    ∧ (∃ (r : DragResult) (moved : CEvent),
        handleDragEnd 0 (some adEvent) (some "all-day-2023-10-27") adMap
            (some "event-2023-10-28-9-2") = .ok r
        ∧ r.updates = [moved]
        ∧ moved.allDay = false
        ∧ moved.duration = some 60
        ∧ moved.start = some (some 1698485400000)
        ∧ moved.end_ = some (some (1698485400000 + 60 * 60000))
        ∧ moved ∈ (recGet r.events
            ("event-" ++ "2023" ++ "-" ++ "10" ++ "-" ++ "28" ++ "-" ++ "9" ++ "-" ++ "2")).getD []) :=
  ⟨by decide, by decide, by decide,
   allday_to_timed_default_duration 0 adEvent (some "all-day-2023-10-27") adMap
     "event-2023-10-28-9-2" "2023" "10" "28" "9" "2"
     (by decide) (by decide) (by decide)
     1698485400000 (by decide)
     1698364800000 (by decide) (by decide)⟩

/-! ## Claims about the month-granularity drag-end variant -/

set_option maxRecDepth 8000 in
/-- Every non-reentrant, non-duplicate exit of the month handler records the
notification key with its timestamp and leaves the drag state cleared; a call that
produced updates also produced exactly one. -/
theorem month_nondup_state (st0 : MonthState) (sel : Option Int) (t1 : Int)
    (aId oId : Option String) (st1 : MonthState) (ups1 : List CEvent) (thr1 : Bool)
    (h0 : st0.isHandling = false)
    (h1 : handleMonthDragEnd st0 sel t1 aId oId = ⟨st1, ups1, thr1⟩)
    (hup : ups1 ≠ []) :
    st1.isHandling = false ∧ st1.activeEvent = none ∧ st1.activeFrom = none
    ∧ st1.lastDrag = some ((aId.getD "") ++ "::" ++ (oId.getD ""), t1)
    ∧ ups1.length = 1 := by
  unfold handleMonthDragEnd at h1
  simp only [h0, Bool.false_eq_true, if_false] at h1
  split at h1
  · cases h1
    exact absurd rfl hup
  · repeat' split at h1
    all_goals cases h1
    all_goals first
      | exact absurd rfl hup
      | exact ⟨rfl, rfl, rfl, rfl, rfl⟩

/-- C4: a second identical `(sourceId, targetId)` month drag-end notification
arriving within 300 ms of a first one that performed a move is ignored entirely:
the pair yields exactly one store update, and the second call leaves the bucket map,
the de-dup descriptor and the whole state unchanged, with no update and no throw. -/
theorem month_duplicate_drop_suppressed (st0 : MonthState) (sel : Option Int)
    (t1 t2 : Int) (aId oId : Option String) (st1 : MonthState) (ups1 : List CEvent)
    (h0 : st0.isHandling = false)
    (h1 : handleMonthDragEnd st0 sel t1 aId oId = ⟨st1, ups1, false⟩)
    (hup : ups1 ≠ [])
    (hdt : t2 - t1 < 300) :
    ups1.length = 1
    ∧ handleMonthDragEnd st1 sel t2 aId oId = ⟨st1, [], false⟩ := by
  obtain ⟨hh, hae, haf, hld, hlen⟩ :=
    month_nondup_state st0 sel t1 aId oId st1 ups1 false h0 h1 hup
  refine ⟨hlen, ?_⟩
  obtain ⟨ih, ld, ae0, af0, E⟩ := st1
  simp only at hh hae haf hld
  subst hh hae haf hld
  unfold handleMonthDragEnd
  simp [hdt]

/-- The month-drag state used to witness duplicate suppression: `timedEvent` active,
dragged from the unscheduled list, nothing deduplicated yet. -/
def mwSt0 : MonthState := ⟨false, none, some timedEvent, some "event-list", timedMap⟩

/-- The moved copy the first month drag produces (date changed to 2023-11-05,
hour/slot kept). -/
def mwMoved : CEvent :=
  { timedEvent with
    start := some (some 1699178400000)
    end_ := some (some 1699182000000)
    slot := some 0 }

/-- The state after the first month drag of the witness. -/
def mwSt1 : MonthState :=
  ⟨false, some ("5::event-2023-11-05-10-0", 1000), none, none,
   [("event-2023-10-27-10-0", [timedEvent]), ("event-2023-11-05-10-0", [mwMoved])]⟩

set_option maxRecDepth 8000 in
theorem month_duplicate_drop_suppressed_witness :
    mwSt0.isHandling = false
    ∧ handleMonthDragEnd mwSt0 (some 1698400800000) 1000 (some "5")
        (some "event-2023-11-05-10-0") = ⟨mwSt1, [mwMoved], false⟩
    ∧ ([mwMoved] : List CEvent) ≠ []
    ∧ (1200 : Int) - 1000 < 300
    ∧ ([mwMoved] : List CEvent).length = 1
    ∧ handleMonthDragEnd mwSt1 (some 1698400800000) 1200 (some "5")
        (some "event-2023-11-05-10-0") = ⟨mwSt1, [], false⟩ :=
  ⟨rfl, by decide, by decide, by decide,
   (month_duplicate_drop_suppressed mwSt0 (some 1698400800000) 1000 1200 (some "5")
      (some "event-2023-11-05-10-0") mwSt1 [mwMoved] rfl (by decide) (by decide)
      (by decide)).1,
   (month_duplicate_drop_suppressed mwSt0 (some 1698400800000) 1000 1200 (some "5")
      (some "event-2023-11-05-10-0") mwSt1 [mwMoved] rfl (by decide) (by decide)
      (by decide)).2⟩

/-- A string literal prefix is a prefix of any extension. -/
theorem charsPrefixOf_append (a b : List Char) : charsPrefixOf a (a ++ b) = true := by
  induction a with
  | nil => rfl
  | cons c cs ih => simp [charsPrefixOf, ih]

/-- C10: a month-view drag-end that moves an event to a different date (according
to the handler's own day comparison) yields a moved copy that differs from the
active event only in `start`, `end` and `slot`: id, title, description, duration,
type, colour and the `allDay` flag are carried over unchanged, and the copy is
inserted into (and persisted from) a timed `event-...` bucket — so an all-day
event moved in month view lands in a timed bucket still carrying `allDay = true`. -/
theorem month_move_frame_effect (st : MonthState) (sel : Option Int) (now : Int)
    (aId : Option String) (oid ys ms ds hs ss : String) (ae : CEvent) (s bsel y m d : Int)
    (h0 : st.isHandling = false)
    (hnodup : st.lastDrag = none)
    (hae : st.activeEvent = some ae)
    (hstart : ae.start = some (some s))
    (hpre : strStartsWith oid "event-" = true)
    (hsplit : jsSplit oid '-' = ["event", ys, ms, ds, hs, ss])
    (hy : jsParseInt ys = some y) (hm : jsParseInt ms = some m)
    (hd : jsParseInt ds = some d)
    (hsel : sel = some bsel)
    (hdiff : formatYmd (setHours0 (setDate (setMonth (setFullYear bsel y) (m - 1)) d))
        ≠ formatYmd s) :
    ∃ moved : CEvent,
      (handleMonthDragEnd st sel now aId (some oid)).threw = false
      ∧ (handleMonthDragEnd st sel now aId (some oid)).updates = [moved]
      ∧ moved.id = ae.id ∧ moved.title = ae.title ∧ moved.description = ae.description
      ∧ moved.duration = ae.duration ∧ moved.type = ae.type ∧ moved.colour = ae.colour
      ∧ moved.allDay = ae.allDay
      ∧ strStartsWith ("event-" ++ ys ++ "-" ++ ms ++ "-" ++ ds ++ "-"
            ++ (monthPreservedHourSlot st.activeFrom hs ss).1 ++ "-"
            ++ (monthPreservedHourSlot st.activeFrom hs ss).2) "event-" = true
      ∧ moved ∈ (recGet (handleMonthDragEnd st sel now aId (some oid)).state.events
          ("event-" ++ ys ++ "-" ++ ms ++ "-" ++ ds ++ "-"
            ++ (monthPreservedHourSlot st.activeFrom hs ss).1 ++ "-"
            ++ (monthPreservedHourSlot st.activeFrom hs ss).2)).getD [] := by
  have hmain : handleMonthDragEnd st sel now aId (some oid)
      = ⟨⟨false, some ((aId.getD "") ++ "::" ++ oid, now), none, none,
          recSet (removeFromOrigin st.events st.activeFrom ae.id)
            ("event-" ++ ys ++ "-" ++ ms ++ "-" ++ ds ++ "-"
              ++ (monthPreservedHourSlot st.activeFrom hs ss).1 ++ "-"
              ++ (monthPreservedHourSlot st.activeFrom hs ss).2)
            ((recGet (removeFromOrigin st.events st.activeFrom ae.id)
                ("event-" ++ ys ++ "-" ++ ms ++ "-" ++ ds ++ "-"
                  ++ (monthPreservedHourSlot st.activeFrom hs ss).1 ++ "-"
                  ++ (monthPreservedHourSlot st.activeFrom hs ss).2)).getD []
              ++ [{ makeMovedEvent now ae
                      (buildDateTime ys ms ds (monthPreservedHourSlot st.activeFrom hs ss).1
                        (monthPreservedHourSlot st.activeFrom hs ss).2) true with
                    slot := jsParseInt (monthPreservedHourSlot st.activeFrom hs ss).2 }])⟩,
         [{ makeMovedEvent now ae
              (buildDateTime ys ms ds (monthPreservedHourSlot st.activeFrom hs ss).1
                (monthPreservedHourSlot st.activeFrom hs ss).2) true with
            slot := jsParseInt (monthPreservedHourSlot st.activeFrom hs ss).2 }],
         false⟩ := by
    unfold handleMonthDragEnd
    simp only [h0, hnodup, hae, hsel, Bool.false_eq_true, if_false, hpre, hsplit, hy, hm,
      hd, hstart, Option.getD_some, if_true]
    rw [if_neg hdiff]
  refine ⟨{ makeMovedEvent now ae
              (buildDateTime ys ms ds (monthPreservedHourSlot st.activeFrom hs ss).1
                (monthPreservedHourSlot st.activeFrom hs ss).2) true with
            slot := jsParseInt (monthPreservedHourSlot st.activeFrom hs ss).2 },
          ?_, ?_, rfl, rfl, rfl, rfl, rfl, rfl, rfl, ?_, ?_⟩
  · rw [hmain]
  · rw [hmain]
  · exact charsPrefixOf_append _ _
  · rw [hmain]
    show _ ∈ (recGet (recSet _ _ _) _).getD []
    rw [recGet_recSet_self]
    simp

/-- The month-drag state used to witness the frame effect: the all-day `adEvent`
is active and sits in its all-day origin bucket. -/
def mw10St : MonthState := ⟨false, none, some adEvent, some "all-day-2023-10-27", adMap⟩

set_option maxRecDepth 8000 in
theorem month_move_frame_effect_witness :
    adEvent.allDay = true
    ∧ formatYmd (setHours0 (setDate (setMonth (setFullYear 1698364800000 2023) (11 - 1)) 5))
        ≠ formatYmd 1698364800000
    ∧ (∃ moved : CEvent,
        (handleMonthDragEnd mw10St (some 1698364800000) 1000 (some "8")
            (some "event-2023-11-05-10-0")).threw = false
        ∧ (handleMonthDragEnd mw10St (some 1698364800000) 1000 (some "8")
            (some "event-2023-11-05-10-0")).updates = [moved]
        ∧ moved.id = adEvent.id ∧ moved.title = adEvent.title
        ∧ moved.description = adEvent.description
        ∧ moved.duration = adEvent.duration ∧ moved.type = adEvent.type
        ∧ moved.colour = adEvent.colour
        ∧ moved.allDay = adEvent.allDay
        ∧ strStartsWith ("event-" ++ "2023" ++ "-" ++ "11" ++ "-" ++ "05" ++ "-"
              ++ (monthPreservedHourSlot mw10St.activeFrom "10" "0").1 ++ "-"
              ++ (monthPreservedHourSlot mw10St.activeFrom "10" "0").2) "event-" = true
        ∧ moved ∈ (recGet (handleMonthDragEnd mw10St (some 1698364800000) 1000 (some "8")
              (some "event-2023-11-05-10-0")).state.events
            ("event-" ++ "2023" ++ "-" ++ "11" ++ "-" ++ "05" ++ "-"
              ++ (monthPreservedHourSlot mw10St.activeFrom "10" "0").1 ++ "-"
              ++ (monthPreservedHourSlot mw10St.activeFrom "10" "0").2)).getD []) :=
  ⟨by decide, by decide,
   month_move_frame_effect mw10St (some 1698364800000) 1000 (some "8")
     "event-2023-11-05-10-0" "2023" "11" "05" "10" "0" adEvent 1698364800000 1698364800000
     2023 11 5 rfl rfl rfl (by decide) (by decide) (by decide) (by decide) (by decide)
     (by decide) rfl (by decide)⟩

/-! ## Claims about the Overlap Layout Engine -/

/-- The start instant the layout engine works with (`start?.getTime() ?? 0`),
projected to `Int` for events with valid dates. -/
def startV (e : CEvent) : Int := (startTO e).getD 0

/-- The end instant the layout engine works with, projected to `Int`. -/
def endV (e : CEvent) : Int := (endTO e).getD 0

/-- An event whose `start` and `end` are present and valid dates. -/
def ValidE (e : CEvent) : Prop :=
  (∃ t, e.start = some (some t)) ∧ (∃ u, e.end_ = some (some u))

theorem startTO_of_valid (e : CEvent) (h : ValidE e) : startTO e = some (startV e) := by
  obtain ⟨⟨t, ht⟩, _⟩ := h
  simp [startTO, startV, ht]

theorem endTO_of_valid (e : CEvent) (h : ValidE e) : endTO e = some (endV e) := by
  obtain ⟨_, ⟨u, hu⟩⟩ := h
  simp [endTO, endV, hu]

/-- The pass condition of the stable-sort insertion never moves an element before
one with a strictly smaller start. -/
theorem sortCmp_pass (z x : CEvent) (hz : ∃ t, z.start = some (some t))
    (hx : ∃ t, x.start = some (some t)) (h : cmpNeg (sortCmp z x) = true) :
    startV z ≤ startV x := by
  obtain ⟨tz, htz⟩ := hz
  obtain ⟨tx, htx⟩ := hx
  by_cases hzx : startV z = startV x
  · exact le_of_eq hzx
  · have hs : jsSub (startTO z) (startTO x) = some (startV z - startV x) := by
      simp [jsSub, startTO, startV, htz, htx]
    have hd : startV z - startV x ≠ 0 := fun hc => hzx (by omega)
    unfold sortCmp at h
    simp only [htz, htx, Option.isNone_some, Bool.or_self, Bool.false_eq_true, if_false,
      hs] at h
    rw [if_pos (by simp [hd])] at h
    simp [cmpNeg] at h
    omega

/-- The insert-before condition of the stable-sort insertion never places an
element after one with a strictly larger start. -/
theorem sortCmp_stop (z x : CEvent) (hz : ∃ t, z.start = some (some t))
    (hx : ∃ t, x.start = some (some t)) (h : ¬ cmpNeg (sortCmp z x) = true) :
    startV x ≤ startV z := by
  obtain ⟨tz, htz⟩ := hz
  obtain ⟨tx, htx⟩ := hx
  by_cases hzx : startV z = startV x
  · exact le_of_eq hzx.symm
  · have hs : jsSub (startTO z) (startTO x) = some (startV z - startV x) := by
      simp [jsSub, startTO, startV, htz, htx]
    have hd : startV z - startV x ≠ 0 := fun hc => hzx (by omega)
    unfold sortCmp at h
    simp only [htz, htx, Option.isNone_some, Bool.or_self, Bool.false_eq_true, if_false,
      hs] at h
    rw [if_pos (by simp [hd])] at h
    simp [cmpNeg] at h
    omega

theorem sortInsert_perm (x : CEvent) (l : List CEvent) :
    List.Perm (sortInsert x l) (x :: l) := by
  induction l with
  | nil => exact List.Perm.refl _
  | cons z zs ih =>
    unfold sortInsert
    by_cases h : cmpNeg (sortCmp z x) = true
    · rw [if_pos h]
      exact List.Perm.trans (ih.cons z) (List.Perm.swap x z zs)
    · rw [if_neg h]

theorem jsSortEvents_perm (l : List CEvent) : List.Perm (jsSortEvents l) l := by
  induction l with
  | nil => exact List.Perm.refl _
  | cons x xs ih =>
    exact List.Perm.trans (sortInsert_perm x (jsSortEvents xs)) (ih.cons x)

theorem sortInsert_sorted (x : CEvent) (l : List CEvent)
    (hx : ∃ t, x.start = some (some t))
    (hl : ∀ e ∈ l, ∃ t, e.start = some (some t))
    (hs : l.Pairwise (fun a b => startV a ≤ startV b)) :
    (sortInsert x l).Pairwise (fun a b => startV a ≤ startV b) := by
  induction l with
  | nil => simp [sortInsert]
  | cons z zs ih =>
    unfold sortInsert
    rcases List.pairwise_cons.mp hs with ⟨hz, hzs⟩
    by_cases h : cmpNeg (sortCmp z x) = true
    · rw [if_pos h]
      refine List.pairwise_cons.mpr ⟨?_, ih (fun e he => hl e (List.mem_cons_of_mem _ he)) hzs⟩
      intro b hb
      have hb2 := (sortInsert_perm x zs).mem_iff.mp hb
      rcases List.mem_cons.mp hb2 with hbx | hbz
      · rw [hbx]
        exact sortCmp_pass z x (hl z (by simp)) hx h
      · exact hz b hbz
    · rw [if_neg h]
      refine List.pairwise_cons.mpr ⟨?_, hs⟩
      intro b hb
      rcases List.mem_cons.mp hb with hbz | hbz
      · rw [hbz]
        exact sortCmp_stop z x (hl z (by simp)) hx h
      · exact le_trans (sortCmp_stop z x (hl z (by simp)) hx h) (hz b hbz)

theorem jsSortEvents_sorted (l : List CEvent)
    (hl : ∀ e ∈ l, ∃ t, e.start = some (some t)) :
    (jsSortEvents l).Pairwise (fun a b => startV a ≤ startV b) := by
  induction l with
  | nil => simp [jsSortEvents]
  | cons x xs ih =>
    unfold jsSortEvents
    refine sortInsert_sorted x (jsSortEvents xs) (hl x (by simp)) ?_
      (ih (fun e he => hl e (List.mem_cons_of_mem _ he)))
    intro e he
    exact hl e (List.mem_cons_of_mem _ ((jsSortEvents_perm xs).mem_iff.mp he))

theorem clustersGo_join (fin : List (List CEvent)) (cur : List CEvent) (ce : Option Int)
    (rest : List CEvent) :
    (clustersGo fin cur ce rest).flatten = fin.flatten ++ cur ++ rest := by
  induction rest generalizing fin cur ce with
  | nil => simp [clustersGo]
  | cons e rest ih =>
    unfold clustersGo
    by_cases h : jsLtB (startTO e) ce = true
    · rw [if_pos h, ih]
      simp
    · rw [if_neg h, ih]
      simp

theorem buildClusters_join (l : List CEvent) : (buildClusters l).flatten = l := by
  cases l with
  | nil => rfl
  | cons e rest =>
    unfold buildClusters
    rw [clustersGo_join]
    simp

/-- Clusters are separated: everything in an earlier cluster ends at or before the
start of anything in a later cluster. -/
def Sep (css : List (List CEvent)) : Prop :=
  css.Pairwise (fun C D => ∀ a ∈ C, ∀ b ∈ D, endV a ≤ startV b)

theorem clustersGo_sep (rest : List CEvent) (fin : List (List CEvent))
    (cur : List CEvent) (ceV : Int)
    (hval : ∀ e ∈ rest, ValidE e)
    (hsorted : rest.Pairwise (fun a b => startV a ≤ startV b))
    (hfin : Sep fin)
    (hfc : ∀ a ∈ fin.flatten, ∀ b, b ∈ cur ∨ b ∈ rest → endV a ≤ startV b)
    (hcur : ∀ a ∈ cur, endV a ≤ ceV) :
    Sep (clustersGo fin cur (some ceV) rest) := by
  induction rest generalizing fin cur ceV with
  | nil =>
    unfold clustersGo
    unfold Sep
    rw [List.pairwise_append]
    refine ⟨hfin, List.Pairwise.cons (by simp) List.Pairwise.nil, ?_⟩
    intro C hC D hD
    simp only [List.mem_singleton] at hD
    subst hD
    intro a ha b hb
    exact hfc a (List.mem_flatten_of_mem hC ha) b (Or.inl hb)
  | cons e rest ih =>
    have hve : ValidE e := hval e (by simp)
    rcases List.pairwise_cons.mp hsorted with ⟨hehd, hstl⟩
    unfold clustersGo
    by_cases h : startV e < ceV
    · have hcond : jsLtB (startTO e) (some ceV) = true := by
        rw [startTO_of_valid e hve]
        simp [jsLtB, h]
      rw [if_pos hcond, endTO_of_valid e hve]
      by_cases hg : jsGtB (some (endV e)) (some ceV) = true
      · rw [if_pos hg]
        have hg2 : ceV < endV e := by simpa [jsGtB] using hg
        refine ih _ _ _ (fun x hx => hval x (by simp [hx])) hstl hfin ?_ ?_
        · intro a ha b hb
          refine hfc a ha b ?_
          rcases hb with hb | hb
          · rcases List.mem_append.mp hb with hb2 | hb2
            · exact Or.inl hb2
            · simp only [List.mem_singleton] at hb2
              exact Or.inr (by simp [hb2])
          · exact Or.inr (by simp [hb])
        · intro a ha
          rcases List.mem_append.mp ha with ha2 | ha2
          · exact le_of_lt (lt_of_le_of_lt (hcur a ha2) hg2)
          · simp only [List.mem_singleton] at ha2
            rw [ha2]
      · rw [if_neg hg]
        have hg2 : endV e ≤ ceV := by
          by_contra hc
          exact hg (by simp [jsGtB]; omega)
        refine ih _ _ _ (fun x hx => hval x (by simp [hx])) hstl hfin ?_ ?_
        · intro a ha b hb
          refine hfc a ha b ?_
          rcases hb with hb | hb
          · rcases List.mem_append.mp hb with hb2 | hb2
            · exact Or.inl hb2
            · simp only [List.mem_singleton] at hb2
              exact Or.inr (by simp [hb2])
          · exact Or.inr (by simp [hb])
        · intro a ha
          rcases List.mem_append.mp ha with ha2 | ha2
          · exact hcur a ha2
          · simp only [List.mem_singleton] at ha2
            rw [ha2]
            exact hg2
    · have hcond : ¬ jsLtB (startTO e) (some ceV) = true := by
        rw [startTO_of_valid e hve]
        simp [jsLtB, h]
      rw [if_neg hcond, endTO_of_valid e hve]
      have hce : ceV ≤ startV e := le_of_not_lt h
      refine ih _ _ _ (fun x hx => hval x (by simp [hx])) hstl ?_ ?_ ?_
      · unfold Sep
        rw [List.pairwise_append]
        refine ⟨hfin, List.Pairwise.cons (by simp) List.Pairwise.nil, ?_⟩
        intro C hC D hD
        simp only [List.mem_singleton] at hD
        subst hD
        intro a ha b hb
        exact hfc a (List.mem_flatten_of_mem hC ha) b (Or.inl hb)
      · intro a ha b hb
        have hsb : startV e ≤ startV b := by
          rcases hb with hb | hb
          · simp only [List.mem_singleton] at hb
            rw [hb]
          · exact hehd b hb
        have ha2 : a ∈ fin.flatten ∨ a ∈ cur := by
          rw [List.flatten_append] at ha
          rcases List.mem_append.mp ha with h1 | h1
          · exact Or.inl h1
          · simp only [List.flatten_cons, List.flatten_nil, List.append_nil] at h1
            exact Or.inr h1
        rcases ha2 with h1 | h1
        · exact le_trans (hfc a h1 e (Or.inr (by simp))) hsb
        · exact le_trans (le_trans (hcur a h1) hce) hsb
      · intro a ha
        simp only [List.mem_singleton] at ha
        rw [ha]

theorem buildClusters_sep (l : List CEvent) (hv : ∀ e ∈ l, ValidE e)
    (hs : l.Pairwise (fun a b => startV a ≤ startV b)) :
    Sep (buildClusters l) := by
  cases l with
  | nil => exact List.Pairwise.nil
  | cons e rest =>
    show Sep (clustersGo [] [e] (endTO e) rest)
    rw [endTO_of_valid e (hv e (by simp))]
    refine clustersGo_sep rest [] [e] (endV e)
      (fun x hx => hv x (by simp [hx])) (List.pairwise_cons.mp hs).2
      List.Pairwise.nil (by simp) ?_
    intro a ha
    simp only [List.mem_singleton] at ha
    rw [ha]

theorem pairwise_of_join (css : List (List CEvent)) (R : CEvent → CEvent → Prop)
    (h : css.flatten.Pairwise R) : ∀ c ∈ css, c.Pairwise R := by
  induction css with
  | nil => simp
  | cons c0 rest ih =>
    rw [List.flatten_cons] at h
    intro c hc
    rcases List.mem_cons.mp hc with h0 | h0
    · rw [h0]
      exact (List.pairwise_append.mp h).1
    · exact ih (List.pairwise_append.mp h).2.1 c h0

theorem overlap_same_cluster (css : List (List CEvent)) (hsep : Sep css)
    (A B : CEvent) (cA cB : List CEvent)
    (hcA : cA ∈ css) (hA : A ∈ cA) (hcB : cB ∈ css) (hB : B ∈ cB)
    (hov1 : startV B < endV A) (hov2 : startV A < endV B) :
    ∃ C ∈ css, A ∈ C ∧ B ∈ C := by
  by_cases hEq : cA = cB
  · exact ⟨cA, hcA, hA, hEq ▸ hB⟩
  · exfalso
    have h2 : css.Pairwise (fun C D =>
        (∀ a ∈ C, ∀ b ∈ D, endV a ≤ startV b)
          ∨ (∀ a ∈ D, ∀ b ∈ C, endV a ≤ startV b)) :=
      hsep.imp (fun h => Or.inl h)
    have hsym : Symmetric (fun C D : List CEvent =>
        (∀ a ∈ C, ∀ b ∈ D, endV a ≤ startV b)
          ∨ (∀ a ∈ D, ∀ b ∈ C, endV a ≤ startV b)) := by
      intro C D h
      exact h.symm
    rcases h2.forall hsym hcA hcB hEq with h | h
    · exact absurd (h A hA B hB) (not_le.mpr hov1)
    · exact absurd (h B hB A hA) (not_le.mpr hov2)

/-- The relation along each packed column: each event starts at or after the end
(and the start) of the one placed before it. -/
def colRel (a b : CEvent) : Prop := endV a ≤ startV b ∧ startV a ≤ startV b

/-- A well-packed column: consecutive members satisfy `colRel`. -/
def ColOK (col : List CEvent) : Prop := col.Chain' colRel

theorem placeInColumns_flatten_count (cols : List (List CEvent)) (e x : CEvent) :
    (placeInColumns cols e).flatten.count x
      = (cols.flatten).count x + List.count x [e] := by
  induction cols with
  | nil => simp [placeInColumns]
  | cons c cs ih =>
    unfold placeInColumns
    by_cases h : jsGeB (startTO e) (colLastEnd c) = true
    · rw [if_pos h]
      simp only [List.flatten_cons, List.count_append]
      omega
    · rw [if_neg h]
      simp only [List.flatten_cons, List.count_append, ih]
      omega

theorem placeInColumns_flatten_perm (cols : List (List CEvent)) (e : CEvent) :
    List.Perm (placeInColumns cols e).flatten (cols.flatten ++ [e]) := by
  refine List.perm_iff_count.mpr (fun x => ?_)
  rw [placeInColumns_flatten_count, List.count_append]

theorem foldl_place_flatten_perm (rest : List CEvent) (cols : List (List CEvent)) :
    List.Perm ((rest.foldl placeInColumns cols).flatten) (cols.flatten ++ rest) := by
  induction rest generalizing cols with
  | nil => simp
  | cons e rest ih =>
    simp only [List.foldl_cons]
    refine List.Perm.trans (ih (placeInColumns cols e)) ?_
    have h1 := (placeInColumns_flatten_perm cols e).append_right rest
    refine List.Perm.trans h1 ?_
    simp [List.append_assoc]

theorem packColumns_flatten_perm (c : List CEvent) :
    List.Perm ((packColumns c).flatten) c := by
  simpa using foldl_place_flatten_perm c []

theorem placeInColumns_colOK (cols : List (List CEvent)) (e : CEvent)
    (hve : ValidE e)
    (hv : ∀ col ∈ cols, ∀ x ∈ col, ValidE x)
    (hcols : ∀ col ∈ cols, ColOK col)
    (hle : ∀ col ∈ cols, ∀ x ∈ col, startV x ≤ startV e) :
    ∀ col ∈ placeInColumns cols e, ColOK col := by
  induction cols with
  | nil =>
    intro col hcol
    simp only [placeInColumns, List.mem_singleton] at hcol
    rw [hcol]
    exact List.chain'_singleton e
  | cons c cs ih =>
    intro col hcol
    unfold placeInColumns at hcol
    by_cases h : jsGeB (startTO e) (colLastEnd c) = true
    · rw [if_pos h] at hcol
      rcases List.mem_cons.mp hcol with h1 | h1
      · rw [h1]
        show List.Chain' colRel (c ++ [e])
        rw [List.chain'_append]
        refine ⟨hcols c (by simp), List.chain'_singleton e, ?_⟩
        intro x hx y hy
        simp only [List.head?_cons, Option.mem_def, Option.some.injEq] at hy
        have hxc : x ∈ c := List.mem_of_mem_getLast? hx
        have hxv : ValidE x := hv c (by simp) x hxc
        have hlast : colLastEnd c = some (endV x) := by
          unfold colLastEnd
          rw [show c.getLast? = some x from hx]
          exact endTO_of_valid x hxv
        rw [startTO_of_valid e hve, hlast] at h
        have hge : endV x ≤ startV e := by simpa [jsGeB] using h
        rw [← hy]
        exact ⟨hge, hle c (by simp) x hxc⟩
      · exact hcols col (List.mem_cons_of_mem _ h1)
    · rw [if_neg h] at hcol
      rcases List.mem_cons.mp hcol with h1 | h1
      · rw [h1]
        exact hcols c (by simp)
      · exact ih (fun col2 hc2 x hx => hv col2 (List.mem_cons_of_mem _ hc2) x hx)
          (fun col2 hc2 => hcols col2 (List.mem_cons_of_mem _ hc2))
          (fun col2 hc2 x hx => hle col2 (List.mem_cons_of_mem _ hc2) x hx) col h1

theorem foldl_place_colOK (rest : List CEvent) (cols : List (List CEvent))
    (hvr : ∀ x ∈ rest, ValidE x)
    (hvc : ∀ col ∈ cols, ∀ x ∈ col, ValidE x)
    (hsorted : rest.Pairwise (fun a b => startV a ≤ startV b))
    (hcols : ∀ col ∈ cols, ColOK col)
    (hle : ∀ col ∈ cols, ∀ x ∈ col, ∀ e2 ∈ rest, startV x ≤ startV e2) :
    ∀ col ∈ rest.foldl placeInColumns cols, ColOK col := by
  induction rest generalizing cols with
  | nil =>
    intro col hcol
    exact hcols col hcol
  | cons e rest ih =>
    simp only [List.foldl_cons]
    have hve : ValidE e := hvr e (by simp)
    rcases List.pairwise_cons.mp hsorted with ⟨hehd, hstl⟩
    have hmem : ∀ col ∈ placeInColumns cols e, ∀ x ∈ col, x ∈ cols.flatten ∨ x = e := by
      intro col hcol x hx
      have h1 : x ∈ (placeInColumns cols e).flatten := List.mem_flatten_of_mem hcol hx
      have h2 := (placeInColumns_flatten_perm cols e).mem_iff.mp h1
      rcases List.mem_append.mp h2 with h3 | h3
      · exact Or.inl h3
      · simp only [List.mem_singleton] at h3
        exact Or.inr h3
    refine ih _ (fun x hx => hvr x (List.mem_cons_of_mem _ hx)) ?_ hstl ?_ ?_
    · intro col hcol x hx
      rcases hmem col hcol x hx with h1 | h1
      · rcases List.mem_flatten.mp h1 with ⟨c2, hc2, hxc2⟩
        exact hvc c2 hc2 x hxc2
      · rw [h1]
        exact hve
    · exact placeInColumns_colOK cols e hve hvc hcols
        (fun col hcol x hx => hle col hcol x hx e (by simp))
    · intro col hcol x hx e2 he2
      rcases hmem col hcol x hx with h1 | h1
      · rcases List.mem_flatten.mp h1 with ⟨c2, hc2, hxc2⟩
        exact hle c2 hc2 x hxc2 e2 (List.mem_cons_of_mem _ he2)
      · rw [h1]
        exact hehd e2 he2

theorem packColumns_colOK (c : List CEvent)
    (hv : ∀ x ∈ c, ValidE x)
    (hsorted : c.Pairwise (fun a b => startV a ≤ startV b)) :
    ∀ col ∈ packColumns c, ColOK col := by
  refine foldl_place_colOK c [] hv (by simp) hsorted (by simp) (by simp)

theorem colRel_trans : Transitive colRel := by
  intro a b c hab hbc
  exact ⟨le_trans hab.1 hbc.2, le_trans hab.2 hbc.2⟩

theorem same_column_no_overlap (col : List CEvent) (h : ColOK col) (A B : CEvent)
    (hA : A ∈ col) (hB : B ∈ col) (hne : A ≠ B)
    (hov1 : startV B < endV A) (hov2 : startV A < endV B) : False := by
  haveI : IsTrans CEvent colRel := ⟨fun a b c hab hbc => colRel_trans hab hbc⟩
  have hp : col.Pairwise colRel := List.chain'_iff_pairwise.mp h
  have h2 : col.Pairwise (fun a b => colRel a b ∨ colRel b a) := hp.imp Or.inl
  have hsym : Symmetric (fun a b : CEvent => colRel a b ∨ colRel b a) := by
    intro a b hab
    exact hab.symm
  rcases h2.forall hsym hA hB hne with h3 | h3
  · exact absurd h3.1 (not_le.mpr hov1)
  · exact absurd h3.1 (not_le.mpr hov2)

theorem inner_fold_get_ne (col : List CEvent) (m : List (String × EventLayout))
    (w : EventLayout) (k : String) (h : ∀ x ∈ col, x.id ≠ k) :
    recGet (col.foldl (fun m3 e => recSet m3 e.id w) m) k = recGet m k := by
  induction col generalizing m with
  | nil => rfl
  | cons z rest ih =>
    simp only [List.foldl_cons]
    rw [ih (recSet m z.id w) (fun x hx => h x (List.mem_cons_of_mem _ hx)),
      recGet_recSet_ne m z.id k w (Ne.symm (h z (by simp)))]

theorem inner_fold_get_mem (col : List CEvent) (m : List (String × EventLayout))
    (w : EventLayout) (e : CEvent) (he : e ∈ col)
    (hnd : (col.map (fun x => x.id)).Nodup) :
    recGet (col.foldl (fun m3 x => recSet m3 x.id w) m) e.id = some w := by
  induction col generalizing m with
  | nil => cases he
  | cons z rest ih =>
    simp only [List.foldl_cons]
    rw [List.map_cons, List.nodup_cons] at hnd
    rcases List.mem_cons.mp he with h1 | h1
    · have hrest : ∀ x ∈ rest, x.id ≠ e.id := by
        intro x hx hc
        refine hnd.1 ?_
        rw [← h1, ← hc]
        exact List.mem_map_of_mem _ hx
      rw [inner_fold_get_ne rest _ w e.id hrest, h1]
      exact recGet_recSet_self m z.id w
    · exact ih (recSet m z.id w) h1 hnd.2

theorem enum_fold_get_ne (W : ℚ) (L : List (Nat × List CEvent))
    (m : List (String × EventLayout)) (k : String)
    (h : ∀ p ∈ L, ∀ x ∈ p.2, x.id ≠ k) :
    recGet (L.foldl (fun m2 p => p.2.foldl
      (fun m3 e => recSet m3 e.id ⟨W, jsMul (p.1 : ℚ) W⟩) m2) m) k = recGet m k := by
  induction L generalizing m with
  | nil => rfl
  | cons p L2 ih =>
    simp only [List.foldl_cons]
    rw [ih _ (fun q hq x hx => h q (List.mem_cons_of_mem _ hq) x hx),
      inner_fold_get_ne p.2 m _ k (fun x hx => h p (by simp) x hx)]

theorem enum_fold_get_mem (W : ℚ) (L : List (Nat × List CEvent))
    (m : List (String × EventLayout)) (e : CEvent) (i : Nat) (col : List CEvent)
    (hin : (i, col) ∈ L) (he : e ∈ col)
    (hnd : (((L.map Prod.snd).flatten).map (fun x => x.id)).Nodup) :
    recGet (L.foldl (fun m2 p => p.2.foldl
      (fun m3 x => recSet m3 x.id ⟨W, jsMul (p.1 : ℚ) W⟩) m2) m) e.id
      = some ⟨W, jsMul (i : ℚ) W⟩ := by
  induction L generalizing m with
  | nil => cases hin
  | cons p L2 ih =>
    simp only [List.map_cons, List.flatten_cons, List.map_append,
      List.nodup_append] at hnd
    simp only [List.foldl_cons]
    by_cases hid : e.id ∈ p.2.map (fun x => x.id)
    · have hhead : (i, col) = p := by
        rcases List.mem_cons.mp hin with h1 | h1
        · exact h1
        · exfalso
          have h2 : e.id ∈ ((L2.map Prod.snd).flatten).map (fun x => x.id) := by
            refine List.mem_map_of_mem _ ?_
            exact List.mem_flatten_of_mem (List.mem_map_of_mem Prod.snd h1) he
          exact hnd.2.2 hid h2
      have hcol : col = p.2 := by rw [← hhead]
      have hi : (i : ℚ) = (p.1 : ℚ) := by rw [← hhead]
      have hL2 : ∀ q ∈ L2, ∀ x ∈ q.2, x.id ≠ e.id := by
        intro q hq x hx hc
        refine hnd.2.2 hid ?_
        rw [← hc]
        refine List.mem_map_of_mem _ ?_
        exact List.mem_flatten_of_mem (List.mem_map_of_mem Prod.snd hq) hx
      rw [enum_fold_get_ne W L2 _ e.id hL2]
      rw [hi]
      exact inner_fold_get_mem p.2 m _ e (hcol ▸ he) hnd.1
    · have h1 : (i, col) ∈ L2 := by
        rcases List.mem_cons.mp hin with h2 | h2
        · exfalso
          refine hid ?_
          refine List.mem_map_of_mem _ ?_
          have : col = p.2 := by rw [← h2]
          exact this ▸ he
        · exact h2
      exact ih _ h1 hnd.2.1

/-- `layoutCluster` unfolded to its enum fold (definitional). -/
theorem layoutCluster_eq (c : List CEvent) (m : List (String × EventLayout)) :
    layoutCluster c m = (packColumns c).enum.foldl (fun m2 p => p.2.foldl
      (fun m3 e => recSet m3 e.id ⟨jsDiv 100 ((packColumns c).length : ℚ),
        jsMul (p.1 : ℚ) (jsDiv 100 ((packColumns c).length : ℚ))⟩) m2) m := rfl

theorem layoutCluster_get_ne (c : List CEvent) (m : List (String × EventLayout))
    (k : String) (h : ∀ x ∈ c, x.id ≠ k) :
    recGet (layoutCluster c m) k = recGet m k := by
  rw [layoutCluster_eq]
  refine enum_fold_get_ne _ _ _ _ ?_
  intro p hp x hx
  have hc : p.2 ∈ packColumns c := by
    have h2 := List.mk_mem_enum_iff_getElem?.mp (by exact hp)
    exact List.getElem?_mem h2
  refine h x ((packColumns_flatten_perm c).mem_iff.mp (List.mem_flatten_of_mem hc hx))

theorem layoutCluster_get_mem (c : List CEvent) (m : List (String × EventLayout))
    (e : CEvent) (i : Nat) (col : List CEvent)
    (hget : (packColumns c)[i]? = some col) (he : e ∈ col)
    (hnd : (c.map (fun x => x.id)).Nodup) :
    recGet (layoutCluster c m) e.id
      = some ⟨jsDiv 100 ((packColumns c).length : ℚ),
          jsMul (i : ℚ) (jsDiv 100 ((packColumns c).length : ℚ))⟩ := by
  rw [layoutCluster_eq]
  refine enum_fold_get_mem _ _ _ _ _ _ (List.mk_mem_enum_iff_getElem?.mpr hget) he ?_
  have hperm : List.Perm (((packColumns c).enum.map Prod.snd).flatten) c := by
    rw [List.enum_map_snd]
    exact packColumns_flatten_perm c
  exact (hperm.map (fun x => x.id)).nodup_iff.mpr hnd

theorem clusters_fold_get_ne (css : List (List CEvent))
    (m : List (String × EventLayout)) (k : String)
    (h : ∀ c ∈ css, ∀ x ∈ c, x.id ≠ k) :
    recGet (css.foldl (fun m2 c2 => layoutCluster c2 m2) m) k = recGet m k := by
  induction css generalizing m with
  | nil => rfl
  | cons c0 rest ih =>
    simp only [List.foldl_cons]
    rw [ih _ (fun c2 hc2 x hx => h c2 (List.mem_cons_of_mem _ hc2) x hx),
      layoutCluster_get_ne c0 m k (fun x hx => h c0 (by simp) x hx)]

theorem clusters_fold_get (css : List (List CEvent))
    (m : List (String × EventLayout)) (e : CEvent) (c : List CEvent) (i : Nat)
    (col : List CEvent)
    (hc : c ∈ css) (hget : (packColumns c)[i]? = some col) (he : e ∈ col)
    (hnd : ((css.flatten).map (fun x => x.id)).Nodup) :
    recGet (css.foldl (fun m2 c2 => layoutCluster c2 m2) m) e.id
      = some ⟨jsDiv 100 ((packColumns c).length : ℚ),
          jsMul (i : ℚ) (jsDiv 100 ((packColumns c).length : ℚ))⟩ := by
  have heInc : e ∈ c :=
    (packColumns_flatten_perm c).mem_iff.mp
      (List.mem_flatten_of_mem (List.getElem?_mem hget) he)
  induction css generalizing m with
  | nil => cases hc
  | cons c0 rest ih =>
    simp only [List.flatten_cons, List.map_append, List.nodup_append] at hnd
    simp only [List.foldl_cons]
    rcases List.mem_cons.mp hc with h1 | h1
    · have hrest : ∀ c2 ∈ rest, ∀ x ∈ c2, x.id ≠ e.id := by
        intro c2 hc2 x hx hcid
        have hm1 : e.id ∈ List.map (fun x => x.id) c0 := by
          refine List.mem_map_of_mem _ ?_
          rw [← h1]
          exact heInc
        have hm2 : e.id ∈ List.map (fun x => x.id) rest.flatten := by
          rw [← hcid]
          refine List.mem_map_of_mem _ ?_
          exact List.mem_flatten_of_mem hc2 hx
        exact hnd.2.2 hm1 hm2
      rw [clusters_fold_get_ne rest _ e.id hrest]
      rw [← h1] at hnd
      rw [← h1]
      exact layoutCluster_get_mem c m e i col hget he hnd.1
    · exact ih _ h1 hnd.2.1

theorem layoutEvents_get (l : List CEvent) (e : CEvent) (c : List CEvent) (i : Nat)
    (col : List CEvent)
    (hc : c ∈ buildClusters (jsSortEvents l))
    (hget : (packColumns c)[i]? = some col) (he : e ∈ col)
    (hnd : (l.map (fun x => x.id)).Nodup) :
    recGet (layoutEvents l) e.id
      = some ⟨jsDiv 100 ((packColumns c).length : ℚ),
          jsMul (i : ℚ) (jsDiv 100 ((packColumns c).length : ℚ))⟩ := by
  have hnd2 : (((buildClusters (jsSortEvents l)).flatten).map (fun x => x.id)).Nodup := by
    rw [buildClusters_join]
    exact ((jsSortEvents_perm l).map (fun x => x.id)).nodup_iff.mpr hnd
  cases hs : jsSortEvents l with
  | nil =>
    rw [hs] at hc
    cases hc
  | cons x xs =>
    have : layoutEvents l = (buildClusters (jsSortEvents l)).foldl
        (fun m2 c2 => layoutCluster c2 m2) [] := by
      unfold layoutEvents
      rw [hs]
    rw [this]
    exact clusters_fold_get _ [] e c i col hc hget he hnd2

theorem pow2_pos (k : Int) : 0 < pow2 k := zpow_pos (by norm_num) k

theorem pow2_natCast (n : ℕ) : pow2 (n : Int) = (2:ℚ) ^ n := zpow_natCast 2 n

theorem pow2_add (i j : Int) : pow2 (i + j) = pow2 i * pow2 j := zpow_add₀ (by norm_num) i j

theorem pow2_mono (i j : Int) (h : i ≤ j) : pow2 i ≤ pow2 j := by
  have h2 : pow2 j = pow2 i * pow2 (j - i) := by
    rw [← pow2_add]
    congr 1
    omega
  have h3 : (1:ℚ) ≤ pow2 (j - i) := by
    rcases Int.le.dest h with ⟨n, hn⟩
    have hji : j - i = (n : Int) := by omega
    rw [hji, pow2_natCast]
    exact one_le_pow₀ (by norm_num)
  nlinarith [pow2_pos i]

/-- `floorLog2` is the binary floor-logarithm: `2^k ≤ q < 2^(k+1)`. -/
theorem floorLog2_correct (q : ℚ) (hq : 0 < q) :
    pow2 (floorLog2 q) ≤ q ∧ q < pow2 (floorLog2 q + 1) := by
  have hnum : 0 < q.num := Rat.num_pos.mpr hq
  have hden : (0:ℚ) < (q.den : ℚ) := by exact_mod_cast q.pos
  have hna0 : q.num.natAbs ≠ 0 := by
    intro h0
    rw [Int.natAbs_eq_zero] at h0
    omega
  have hnumAbs : ((q.num.natAbs : ℕ) : ℚ) = (q.num : ℚ) := by
    rw [Int.cast_natAbs]
    exact_mod_cast abs_of_pos hnum
  have h1 : (2:ℚ) ^ q.num.natAbs.log2 ≤ (q.num : ℚ) := by
    rw [← hnumAbs]
    exact_mod_cast Nat.log2_self_le hna0
  have h2 : (q.num : ℚ) < (2:ℚ) ^ (q.num.natAbs.log2 + 1) := by
    rw [← hnumAbs]
    exact_mod_cast Nat.lt_log2_self
  have h3 : (2:ℚ) ^ q.den.log2 ≤ (q.den : ℚ) := by
    exact_mod_cast Nat.log2_self_le q.den_nz
  have h4 : (q.den : ℚ) < (2:ℚ) ^ (q.den.log2 + 1) := by
    exact_mod_cast Nat.lt_log2_self
  have hqeq : q = (q.num : ℚ) / (q.den : ℚ) := (Rat.num_div_den q).symm
  have hlow : pow2 ((q.num.natAbs.log2 : Int) - (q.den.log2 : Int) - 1) < q := by
    have hcollapse : pow2 ((q.num.natAbs.log2 : Int) - (q.den.log2 : Int) - 1)
        * (2:ℚ)^(q.den.log2 + 1) = (2:ℚ)^q.num.natAbs.log2 := by
      rw [← pow2_natCast (q.den.log2 + 1), ← pow2_add, ← pow2_natCast q.num.natAbs.log2]
      congr 1
      push_cast
      omega
    have hmul : pow2 ((q.num.natAbs.log2 : Int) - (q.den.log2 : Int) - 1) * (q.den : ℚ)
        < (q.num : ℚ) := by
      calc pow2 ((q.num.natAbs.log2 : Int) - (q.den.log2 : Int) - 1) * (q.den : ℚ)
          < pow2 ((q.num.natAbs.log2 : Int) - (q.den.log2 : Int) - 1)
              * (2:ℚ)^(q.den.log2 + 1) := mul_lt_mul_of_pos_left h4 (pow2_pos _)
        _ = (2:ℚ)^q.num.natAbs.log2 := hcollapse
        _ ≤ (q.num : ℚ) := h1
    have hdiv := (lt_div_iff₀ hden).mpr hmul
    rw [Rat.num_div_den q] at hdiv
    exact hdiv
  have hhigh : q < pow2 ((q.num.natAbs.log2 : Int) - (q.den.log2 : Int) + 1) := by
    have hcollapse : pow2 ((q.num.natAbs.log2 : Int) - (q.den.log2 : Int) + 1)
        * (2:ℚ)^q.den.log2 = (2:ℚ)^(q.num.natAbs.log2 + 1) := by
      rw [← pow2_natCast q.den.log2, ← pow2_add, ← pow2_natCast (q.num.natAbs.log2 + 1)]
      congr 1
      push_cast
      omega
    have hmul : (q.num : ℚ)
        < pow2 ((q.num.natAbs.log2 : Int) - (q.den.log2 : Int) + 1) * (q.den : ℚ) := by
      calc (q.num : ℚ) < (2:ℚ)^(q.num.natAbs.log2 + 1) := h2
        _ = pow2 ((q.num.natAbs.log2 : Int) - (q.den.log2 : Int) + 1) * (2:ℚ)^q.den.log2 :=
            hcollapse.symm
        _ ≤ pow2 ((q.num.natAbs.log2 : Int) - (q.den.log2 : Int) + 1) * (q.den : ℚ) :=
            mul_le_mul_of_nonneg_left h3 (pow2_pos _).le
    have hdiv := (div_lt_iff₀ hden).mpr hmul
    rw [Rat.num_div_den q] at hdiv
    exact hdiv
  have hfl : floorLog2 q
      = if q < pow2 ((q.num.natAbs.log2 : Int) - (q.den.log2 : Int))
        then (q.num.natAbs.log2 : Int) - (q.den.log2 : Int) - 1
        else (q.num.natAbs.log2 : Int) - (q.den.log2 : Int) := rfl
  rw [hfl]
  by_cases hc : q < pow2 ((q.num.natAbs.log2 : Int) - (q.den.log2 : Int))
  · rw [if_pos hc]
    refine ⟨hlow.le, ?_⟩
    have he : (q.num.natAbs.log2 : Int) - (q.den.log2 : Int) - 1 + 1
        = (q.num.natAbs.log2 : Int) - (q.den.log2 : Int) := by omega
    rw [he]
    exact hc
  · rw [if_neg hc]
    exact ⟨not_lt.mp hc, hhigh⟩

/-- The binary floor-logarithm is determined by its sandwich property. -/
theorem floorLog2_eq_of (q : ℚ) (k : Int) (hq : 0 < q)
    (h1 : pow2 k ≤ q) (h2 : q < pow2 (k + 1)) : floorLog2 q = k := by
  rcases floorLog2_correct q hq with ⟨c1, c2⟩
  by_contra hne
  rcases lt_or_gt_of_ne hne with hlt | hlt
  · have h3 : pow2 (floorLog2 q + 1) ≤ pow2 k := pow2_mono _ _ (by omega)
    exact absurd (lt_of_lt_of_le c2 (le_trans h3 h1)) (lt_irrefl q)
  · have h3 : pow2 (k + 1) ≤ pow2 (floorLog2 q) := pow2_mono _ _ (by omega)
    exact absurd (lt_of_lt_of_le h2 (le_trans h3 c1)) (lt_irrefl q)

theorem flPos_eval (q : ℚ) (k m : Int)
    (hlog : floorLog2 q = k)
    (hround : roundNearestEven (q / pow2 (k - 52)) = m) :
    flPos q = (m : ℚ) * pow2 (k - 52) := by
  unfold flPos
  rw [hlog, hround]

theorem roundNearestEven_eq_floor (s : ℚ) (n : Int) (hf : ⌊s⌋ = n)
    (h : s - (n : ℚ) < 1/2) : roundNearestEven s = n := by
  have he : roundNearestEven s
      = if s - ((⌊s⌋ : Int) : ℚ) < 1/2 then ⌊s⌋
        else if 1/2 < s - ((⌊s⌋ : Int) : ℚ) then ⌊s⌋ + 1
        else if ⌊s⌋ % 2 = 0 then ⌊s⌋ else ⌊s⌋ + 1 := rfl
  rw [he, hf, if_pos h]

theorem roundNearestEven_eq_up (s : ℚ) (n : Int) (hf : ⌊s⌋ = n)
    (h : 1/2 < s - (n : ℚ)) : roundNearestEven s = n + 1 := by
  have he : roundNearestEven s
      = if s - ((⌊s⌋ : Int) : ℚ) < 1/2 then ⌊s⌋
        else if 1/2 < s - ((⌊s⌋ : Int) : ℚ) then ⌊s⌋ + 1
        else if ⌊s⌋ % 2 = 0 then ⌊s⌋ else ⌊s⌋ + 1 := rfl
  rw [he, hf, if_neg (not_lt.mpr h.le), if_pos h]

theorem roundNearestEven_intCast (n : Int) : roundNearestEven ((n : Int) : ℚ) = n :=
  roundNearestEven_eq_floor _ n (Int.floor_intCast n) (by norm_num)

/-- `100 / 1` is exact in binary64. -/
theorem jsDiv_100_1 : jsDiv 100 ((1:Nat):ℚ) = 100 := by
  have hc : ((1:Nat):ℚ) = 1 := by norm_num
  unfold jsDiv fl
  rw [hc, div_one, if_neg (by norm_num), if_pos (by norm_num)]
  have hlog : floorLog2 100 = 6 :=
    floorLog2_eq_of 100 6 (by norm_num) (by norm_num [pow2]) (by norm_num [pow2])
  have hr : roundNearestEven ((100:ℚ) / pow2 (6 - 52)) = 7036874417766400 := by
    have hs : (100:ℚ) / pow2 (6 - 52) = ((7036874417766400 : Int) : ℚ) := by
      norm_num [pow2]
    rw [hs, roundNearestEven_intCast]
  rw [flPos_eval 100 6 7036874417766400 hlog hr]
  norm_num [pow2]

/-- Multiplication by the double `0` is exact in binary64. -/
theorem jsMul_zero_left (w : ℚ) : jsMul ((0:Nat):ℚ) w = 0 := by
  have hc : ((0:Nat):ℚ) = 0 := by norm_num
  unfold jsMul
  rw [hc, zero_mul]
  unfold fl
  rw [if_pos rfl]

/-- `100 / 6` in binary64 is the double `16.666666666666668`, one ulp above the
exact rational `100/6`. -/
theorem jsDiv_100_6 : jsDiv 100 ((6:Nat):ℚ) = 4691249611844267 / 2^48 := by
  have hc : ((6:Nat):ℚ) = 6 := by norm_num
  unfold jsDiv fl
  rw [hc, if_neg (by norm_num), if_pos (by norm_num)]
  have hlog : floorLog2 ((100:ℚ) / 6) = 4 :=
    floorLog2_eq_of _ 4 (by norm_num) (by norm_num [pow2]) (by norm_num [pow2])
  have hf : ⌊(100:ℚ) / 6 / pow2 (4 - 52)⌋ = 4691249611844266 := by
    rw [Int.floor_eq_iff]
    constructor
    · norm_num [pow2]
    · norm_num [pow2]
  have hr : roundNearestEven ((100:ℚ) / 6 / pow2 (4 - 52)) = 4691249611844266 + 1 :=
    roundNearestEven_eq_up _ _ hf (by norm_num [pow2])
  rw [flPos_eval _ 4 _ hlog hr]
  push_cast
  norm_num [pow2]

/-- Five times the double `16.666666666666668` in binary64 is the double
`83.33333333333334`. -/
theorem jsMul_5_w6 :
    jsMul ((5:Nat):ℚ) (4691249611844267 / 2^48) = 5864062014805334 / 2^46 := by
  have hc : ((5:Nat):ℚ) = 5 := by norm_num
  unfold jsMul fl
  rw [hc, if_neg (by norm_num), if_pos (by norm_num)]
  have hlog : floorLog2 ((5:ℚ) * (4691249611844267 / 2^48)) = 6 :=
    floorLog2_eq_of _ 6 (by norm_num) (by norm_num [pow2]) (by norm_num [pow2])
  have hf : ⌊(5:ℚ) * (4691249611844267 / 2^48) / pow2 (6 - 52)⌋ = 5864062014805333 := by
    rw [Int.floor_eq_iff]
    constructor
    · norm_num [pow2]
    · norm_num [pow2]
  have hr : roundNearestEven ((5:ℚ) * (4691249611844267 / 2^48) / pow2 (6 - 52))
      = 5864062014805333 + 1 :=
    roundNearestEven_eq_up _ _ hf (by norm_num [pow2])
  rw [flPos_eval _ 6 _ hlog hr]
  push_cast
  norm_num [pow2]

/-- Locate the cluster, column index and column of an event. -/
theorem locate_event (l : List CEvent) (e : CEvent) (he : e ∈ l) :
    ∃ (c : List CEvent) (i : Nat) (col : List CEvent),
      c ∈ buildClusters (jsSortEvents l) ∧ e ∈ c
      ∧ (packColumns c)[i]? = some col ∧ e ∈ col := by
  have h1 : e ∈ jsSortEvents l := (jsSortEvents_perm l).mem_iff.mpr he
  have h2 : e ∈ (buildClusters (jsSortEvents l)).flatten := by
    rw [buildClusters_join]
    exact h1
  rcases List.mem_flatten.mp h2 with ⟨c, hc, hec⟩
  have h3 : e ∈ (packColumns c).flatten := (packColumns_flatten_perm c).mem_iff.mpr hec
  rcases List.mem_flatten.mp h3 with ⟨col, hcol, hecol⟩
  rcases List.mem_iff_getElem?.mp hcol with ⟨i, hi⟩
  exact ⟨c, i, col, hc, hec, hi, hecol⟩

set_option maxHeartbeats 1000000 in
/-- C2 (corrected): in every `layoutEvents` call on events with valid starts/ends
and distinct ids, any two events whose intervals overlap (`A.start < B.end` and
`B.start < A.end`) lie in one common cluster and are assigned different columns
of its packing, and both stored entries exist and have equal widths; and every
event's entry has `width` equal to the binary64 quotient `100 / numberOfColumns`
of its cluster's packing and `left` equal to the binary64 product
`columnIndex * width` with `columnIndex < numberOfColumns`.  The original claim's
further conjuncts `width = 100 / numberOfColumns` exactly and
`left + width ≤ 100` are refuted by `layout_left_width_exceeds_100`. -/
theorem layout_overlap_columns_and_widths (l : List CEvent)
    (hv : ∀ e ∈ l, ValidE e)
    (hnd : (l.map (fun e => e.id)).Nodup) :
    (∀ A ∈ l, ∀ B ∈ l, A.id ≠ B.id →
        startV B < endV A → startV A < endV B →
        ∃ (C : List CEvent) (iA iB : Nat) (colA colB : List CEvent)
          (LA LB : EventLayout),
          C ∈ buildClusters (jsSortEvents l)
          ∧ iA ≠ iB
          ∧ (packColumns C)[iA]? = some colA ∧ A ∈ colA
          ∧ (packColumns C)[iB]? = some colB ∧ B ∈ colB
          ∧ recGet (layoutEvents l) A.id = some LA
          ∧ recGet (layoutEvents l) B.id = some LB
          ∧ LA.width = LB.width)
    ∧ (∀ e ∈ l, ∃ (c : List CEvent) (i : Nat) (L : EventLayout),
        c ∈ buildClusters (jsSortEvents l) ∧ e ∈ c
        ∧ recGet (layoutEvents l) e.id = some L
        ∧ L.width = jsDiv 100 ((packColumns c).length : ℚ)
        ∧ i < (packColumns c).length
        ∧ L.left = jsMul (i : ℚ) L.width) := by
  have hvs : ∀ e ∈ jsSortEvents l, ValidE e :=
    fun e he => hv e ((jsSortEvents_perm l).mem_iff.mp he)
  have hsorted : (jsSortEvents l).Pairwise (fun a b => startV a ≤ startV b) :=
    jsSortEvents_sorted l (fun e he => (hv e he).1)
  have hsep : Sep (buildClusters (jsSortEvents l)) :=
    buildClusters_sep (jsSortEvents l) hvs hsorted
  have hcsorted : ∀ c ∈ buildClusters (jsSortEvents l),
      c.Pairwise (fun a b => startV a ≤ startV b) := by
    intro c hc
    refine pairwise_of_join _ _ ?_ c hc
    rw [buildClusters_join]
    exact hsorted
  have hcvalid : ∀ c ∈ buildClusters (jsSortEvents l), ∀ x ∈ c, ValidE x := by
    intro c hc x hx
    refine hvs x ?_
    rw [← buildClusters_join (jsSortEvents l)]
    exact List.mem_flatten_of_mem hc hx
  constructor
  · intro A hA B hB hid hov1 hov2
    rcases locate_event l A hA with ⟨cA, iA, colA, hcA, hAc, hgetA, hAcol⟩
    rcases locate_event l B hB with ⟨cB, iB, colB, hcB, hBc, hgetB, hBcol⟩
    rcases overlap_same_cluster _ hsep A B cA cB hcA hAc hcB hBc hov1 hov2
      with ⟨C, hC, hAC, hBC⟩
    rcases List.mem_flatten.mp
      ((packColumns_flatten_perm C).mem_iff.mpr hAC) with ⟨colA2, hcolA2, hA2⟩
    rcases List.mem_iff_getElem?.mp hcolA2 with ⟨i2, hi2⟩
    rcases List.mem_flatten.mp
      ((packColumns_flatten_perm C).mem_iff.mpr hBC) with ⟨colB2, hcolB2, hB2⟩
    rcases List.mem_iff_getElem?.mp hcolB2 with ⟨j2, hj2⟩
    have hLA := layoutEvents_get l A C i2 colA2 hC hi2 hA2 hnd
    have hLB := layoutEvents_get l B C j2 colB2 hC hj2 hB2 hnd
    have hij : i2 ≠ j2 := by
      intro hEq
      rw [hEq, hj2] at hi2
      have hcols : colA2 = colB2 := (Option.some.inj hi2).symm
      refine same_column_no_overlap colB2 ?_ A B (hcols ▸ hA2) hB2 ?_ hov1 hov2
      · exact packColumns_colOK C (hcvalid C hC) (hcsorted C hC) colB2 hcolB2
      · intro hAB
        exact hid (by rw [hAB])
    exact ⟨C, i2, j2, colA2, colB2, _, _, hC, hij, hi2, hA2, hj2, hB2, hLA, hLB, rfl⟩
  · intro e he
    rcases locate_event l e he with ⟨c, i, col, hc, hec, hget, hecol⟩
    have hL := layoutEvents_get l e c i col hc hget hecol hnd
    have hlt : i < (packColumns c).length := by
      rcases List.getElem?_eq_some_iff.mp hget with ⟨hlt, _⟩
      exact hlt
    exact ⟨c, i, _, hc, hec, hL, rfl, hlt, rfl⟩

/-- Event A of the touching pair: 10:00–10:30 on 2023-10-27. -/
def touchA : CEvent :=
  { id := "A", title := "A", description := none,
    start := some (some 1698400800000), end_ := some (some 1698402600000),
    duration := none, type := none, colour := none, slot := none, allDay := false }

/-- Event B of the touching pair: 10:30–11:00 on 2023-10-27. -/
def touchB : CEvent :=
  { id := "B", title := "B", description := none,
    start := some (some 1698402600000), end_ := some (some 1698404400000),
    duration := none, type := none, colour := none, slot := none, allDay := false }

/-- C9: two events that merely touch (A ends exactly when B starts) are not treated
as overlapping: the sweep closes the first cluster at the touch, each event is its
own cluster with a single column, and both receive `width = 100`, `left = 0`. -/
theorem touching_events_full_width :
    (buildClusters (jsSortEvents [touchA, touchB])).length = 2
    ∧ recGet (layoutEvents [touchA, touchB]) "A" = some ⟨100, 0⟩
    ∧ recGet (layoutEvents [touchA, touchB]) "B" = some ⟨100, 0⟩ := by
  have h : layoutEvents [touchA, touchB]
      = [("A", ⟨jsDiv 100 ((1:Nat):ℚ), jsMul ((0:Nat):ℚ) (jsDiv 100 ((1:Nat):ℚ))⟩),
         ("B", ⟨jsDiv 100 ((1:Nat):ℚ), jsMul ((0:Nat):ℚ) (jsDiv 100 ((1:Nat):ℚ))⟩)] := rfl
  refine ⟨by decide, ?_, ?_⟩ <;>
    · rw [h]
      simp only [recGet, jsDiv_100_1, jsMul_zero_left]
      norm_num

/-- Overlapping pair used to witness the layout invariants: A 10:00–11:00,
B 10:30–11:30. -/
def ovA : CEvent :=
  { id := "A", title := "A", description := none,
    start := some (some 1698400800000), end_ := some (some 1698404400000),
    duration := none, type := none, colour := none, slot := none, allDay := false }

/-- Second member of the overlapping pair. -/
def ovB : CEvent :=
  { id := "B", title := "B", description := none,
    start := some (some 1698402600000), end_ := some (some 1698406200000),
    duration := none, type := none, colour := none, slot := none, allDay := false }

theorem layout_overlap_columns_and_widths_witness :
    (∀ e ∈ [ovA, ovB], ValidE e)
    ∧ (([ovA, ovB].map (fun e => e.id)).Nodup)
    ∧ ovA.id ≠ ovB.id ∧ startV ovB < endV ovA ∧ startV ovA < endV ovB
    ∧ (∃ (C : List CEvent) (iA iB : Nat) (colA colB : List CEvent)
        (LA LB : EventLayout),
        C ∈ buildClusters (jsSortEvents [ovA, ovB])
        ∧ iA ≠ iB
        ∧ (packColumns C)[iA]? = some colA ∧ ovA ∈ colA
        ∧ (packColumns C)[iB]? = some colB ∧ ovB ∈ colB
        ∧ recGet (layoutEvents [ovA, ovB]) ovA.id = some LA
        ∧ recGet (layoutEvents [ovA, ovB]) ovB.id = some LB
        ∧ LA.width = LB.width) := by
  have hval : ∀ e ∈ [ovA, ovB], ValidE e := by
    intro e he
    rcases List.mem_cons.mp he with h | h
    · rw [h]
      exact ⟨⟨_, rfl⟩, ⟨_, rfl⟩⟩
    · simp only [List.mem_singleton] at h
      rw [h]
      exact ⟨⟨_, rfl⟩, ⟨_, rfl⟩⟩
  exact ⟨hval, by decide, by decide, by decide, by decide,
    (layout_overlap_columns_and_widths [ovA, ovB] hval (by decide)).1 ovA (by simp) ovB
      (by simp) (by decide) (by decide) (by decide)⟩

/-- One of six mutually overlapping events: 10:00–11:00 on 2023-10-27. -/
def sixEvent (s : String) : CEvent :=
  { id := s, title := s, description := none,
    start := some (some 1698400800000), end_ := some (some 1698404400000),
    duration := none, type := none, colour := none, slot := none, allDay := false }

/-- A six-event input forming one cluster that packs into six columns. -/
def sixList : List CEvent :=
  [sixEvent "A", sixEvent "B", sixEvent "C", sixEvent "D", sixEvent "E", sixEvent "F"]

/-- C2 counterexample: six mutually overlapping events pack into six columns of a
single cluster, and the entry stored for the sixth one has
`width = 4691249611844267·2⁻⁴⁸` (the double `16.666666666666668`, which is not
the exact rational `100/6`) and `left = 5864062014805334·2⁻⁴⁶` (the double
`83.33333333333334`), whose sum is `100 + 3·2⁻⁴⁸`: the claim's conjuncts
`width = 100 / numberOfColumns` and `left + width ≤ 100` are false of the
program's stored binary64 values. -/
theorem layout_left_width_exceeds_100 :
    recGet (layoutEvents sixList) "F"
      = some ⟨jsDiv 100 ((6:Nat):ℚ), jsMul ((5:Nat):ℚ) (jsDiv 100 ((6:Nat):ℚ))⟩
    ∧ jsDiv 100 ((6:Nat):ℚ) = 4691249611844267 / 2^48
    ∧ jsMul ((5:Nat):ℚ) (jsDiv 100 ((6:Nat):ℚ)) = 5864062014805334 / 2^46
    ∧ jsDiv 100 ((6:Nat):ℚ) ≠ 100 / ((6:Nat):ℚ)
    ∧ 100 < jsMul ((5:Nat):ℚ) (jsDiv 100 ((6:Nat):ℚ)) + jsDiv 100 ((6:Nat):ℚ) := by
  have h1 : recGet (layoutEvents sixList) "F"
      = some ⟨jsDiv 100 ((6:Nat):ℚ), jsMul ((5:Nat):ℚ) (jsDiv 100 ((6:Nat):ℚ))⟩ := rfl
  refine ⟨h1, jsDiv_100_6, ?_, ?_, ?_⟩
  · rw [jsDiv_100_6]
    exact jsMul_5_w6
  · rw [jsDiv_100_6]
    norm_num
  · rw [jsDiv_100_6, jsMul_5_w6]
    norm_num

end ATCalendar
